import Mathlib

/-
  Verification of the Rust code-emission engine
  (src/engine/src/conversion/codegen_rs/mod.rs).

  The definitions below form a shallow embedding of that file.  Rust `syn`
  items produced through `parse_quote!` / `quote!` templates are modelled as
  constructors of small inductive types: each template becomes one
  constructor carrying exactly the data the source interpolates into the
  template; the fixed surrounding text of the template is represented by the
  constructor's identity.  `HashMap`s whose iteration order the source
  observes are modelled with an explicit iteration-order parameter.
  Collaborator functions that live in other files of the repository
  (fun_codegen, impl_item_creator, known_types, the QualifiedName helpers,
  ...) are passed in as components of an `Externals` record, or - where the
  spec describes them - defined with a doc comment starting
  `Modelled from the spec:`.
-/

namespace Autocxx

/-- A `syn::Pat` as far as this file inspects one: either a plain
identifier pattern or anything else. -/
inductive Pat where
  | ident (s : String)
  | other
deriving DecidableEq, Repr

/-- A `syn::FnArg`: a receiver (`self`-style) argument, or a typed argument
`pat : ty`.  Types are carried as plain strings; this file never inspects
them beyond copying. -/
inductive FnArg where
  | receiver (mutable : Bool)
  | typed (pat : Pat) (ty : String)
deriving DecidableEq, Repr

/-- A `syn::ReturnType`: default (no annotation) or an explicit type. -/
inductive RetType where
  | default
  | ty (t : String)
deriving DecidableEq, Repr

/-- `analysis::fun::ReceiverMutability`. -/
inductive ReceiverMutability where
  | const
  | mutable
deriving DecidableEq, Repr

/-- `analysis::fun::MethodKind`: the tag distinguishing ordinary, static,
constructor, virtual and pure-virtual methods.  Only the virtual /
pure-virtual distinction is inspected by this file. -/
inductive MethodKind where
  | normal
  | constructorKind
  | staticKind
  | virtualKind (rm : ReceiverMutability)
  | pureVirtualKind (rm : ReceiverMutability)
deriving DecidableEq, Repr

/-- `types::QualifiedName`: a namespace path plus a local identifier. -/
structure QualifiedName where
  nspace : List String
  localName : String
deriving DecidableEq, Repr

namespace QualifiedName

/-- `get_final_item` / `get_final_ident`: the local identifier. -/
def getFinalItem (q : QualifiedName) : String := q.localName

/-- Split a character list at every `::`, accumulating the current
segment in reverse (structural recursion, so it evaluates in the
kernel). -/
def splitCppSegs : List Char → List Char → List String
  | [], acc => [String.mk acc.reverse]
  | ':' :: ':' :: rest, acc => String.mk acc.reverse :: splitCppSegs rest []
  | c :: rest, acc => splitCppSegs rest (c :: acc)

/-- Modelled from the spec: construction from a foreign-style
`::`-delimited name (spec 4.1); `QualifiedName::new_from_cpp_name` lives
outside this source file. -/
def newFromCppName (s : String) : QualifiedName :=
  match (splitCppSegs s.data []).reverse with
  | [] => ⟨[], s⟩
  | last :: revInit => ⟨revInit.reverse, last⟩

/-- Modelled from the spec: the `::`-delimited rendering used by the
`Display` implementation (spec 4.1); this is how the source's `format!`
prints a qualified name. -/
def toCppNameString (q : QualifiedName) : String :=
  String.intercalate "::" (q.nspace ++ [q.localName])

/-- Modelled from the spec: `get_bindgen_path_idents`, the path of the
wrapper-type (bindgen) definition of a name: the `bindgen::root` region
followed by the namespace segments and the local name (spec 6, the nested
nominal-type definition region mirroring the namespace tree). -/
def bindgenPathSegs (q : QualifiedName) : List String :=
  "bindgen" :: "root" :: (q.nspace ++ [q.localName])

end QualifiedName

/-- `api::SubclassName`: a newtype over the subclass's name; `sub.0.name`
in the source is `sub.name` here. -/
structure SubclassName where
  name : QualifiedName
deriving DecidableEq, Repr

/-- One parameter's analysis record, as far as this file reads it:
`pd.name` (a pattern) and `pd.requires_unsafe` (here `requiresUnsafe`). -/
structure ParamDetail where
  name : Pat
  requiresUnsafe : Bool
deriving DecidableEq, Repr

/-- `analysis::fun::FnKind`, restricted to what this file matches on:
a method with its receiver type and kind, or a free function. -/
inductive FnKind where
  | method (receiver : QualifiedName) (kind : MethodKind)
  | function
deriving DecidableEq, Repr

/-- `analysis::fun::FnAnalysis`: the fields destructured by
`accumulate_superclass_methods`. -/
structure FnAnalysis where
  kind : FnKind
  params : List FnArg
  retType : RetType
  paramDetails : List ParamDetail
deriving DecidableEq, Repr

/-- `api::TypeKind`: the representability tag of a record type. -/
inductive TypeKind where
  | pod
  | nonPod
  | nonPodNested
  | abstract
deriving DecidableEq, Repr

/-- `api::TypedefKind`. -/
inductive TypedefKind where
  | tyAlias (payload : String)
  | useAlias (payload : String)
deriving DecidableEq, Repr

/-- `convert_error::ErrorContext`: a whole-item failure or a failure of a
specific member of a named type. -/
inductive ErrorContext where
  | itemCtx (id : String)
  | methodCtx (selfTy : String) (method : String)
deriving DecidableEq, Repr

/-- The per-base accumulated method record (`SuperclassMethod`). -/
structure SuperclassMethod where
  name : String
  params : List FnArg
  paramNames : List Pat
  retType : RetType
  receiverMutability : ReceiverMutability
  requiresUnsafe : Bool
deriving DecidableEq, Repr

/-- `api::RustSubclassFnDetails`, restricted to the fields
`generate_subclass_fn` reads. -/
structure RustSubclassFnDetails where
  params : List FnArg
  ret : RetType
  methodName : String
  superclass : QualifiedName
  receiverMutability : ReceiverMutability
  requiresUnsafe : Bool
deriving DecidableEq, Repr

/-- The relevant fields of `IncludeCppConfig`. -/
structure Config where
  superclasses : List String
  excludeUtilities : Bool
  makestringName : String
  modName : String
deriving DecidableEq, Repr

/-- `Api<FnPhase>`: the discriminated union of analyzed items, one variant
per arm of `generate_rs_for_api`.  Each variant carries its name and the
payload fields the corresponding arm reads. -/
inductive Api where
  | stringConstructor (name : QualifiedName)
  | function (name : QualifiedName) (analysis : FnAnalysis)
  | constItem (name : QualifiedName) (payload : String)
  | typedef (name : QualifiedName) (kind : TypedefKind)
  | structItem (name : QualifiedName) (kind : TypeKind) (docAttr : Option String)
  | enumItem (name : QualifiedName) (docAttr : Option String)
  | forwardDeclaration (name : QualifiedName)
  | concreteType (name : QualifiedName)
  | cType (name : QualifiedName)
  | rustType (name : QualifiedName) (path : String)
  | rustFn (name : QualifiedName) (sig : String) (path : String)
  | rustSubclassFn (name : QualifiedName) (details : RustSubclassFnDetails) (sub : SubclassName)
  | subclass (sub : SubclassName) (superclass : QualifiedName)
  | rustSubclassConstructor (sub : SubclassName) (isTrivial : Bool)
  | ignoredItem (name : QualifiedName) (err : String) (ctx : ErrorContext)
deriving DecidableEq, Repr

/-- `api.name()`. -/
def Api.name : Api → QualifiedName
  | .stringConstructor n => n
  | .function n _ => n
  | .constItem n _ => n
  | .typedef n _ => n
  | .structItem n _ _ => n
  | .enumItem n _ => n
  | .forwardDeclaration n => n
  | .concreteType n => n
  | .cType n => n
  | .rustType n _ => n
  | .rustFn n _ _ => n
  | .rustSubclassFn n _ _ => n
  | .subclass s _ => s.name
  | .rustSubclassConstructor s _ => s.name
  | .ignoredItem n _ _ => n

/-!  `find_trivially_constructed_subclasses`: partition the
`RustSubclassConstructor` items by their `is_trivial` flag and take the set
difference of qualified names, trivial minus non-trivial. -/

/-- The `(subclass name, is_trivial)` pairs produced by the source's
`map ... flatten` over all items. -/
def subclassConstructorPairs (apis : List Api) : List (QualifiedName × Bool) :=
  apis.filterMap fun api =>
    match api with
    | .rustSubclassConstructor sub isTrivial => some (sub.name, isTrivial)
    | _ => none

/-- `find_trivially_constructed_subclasses`. -/
def find_trivially_constructed_subclasses (apis : List Api) : Finset QualifiedName :=
  let parts := (subclassConstructorPairs apis).partition (fun p => p.2)
  let simpleConstructors := (parts.1.map Prod.fst).toFinset
  let complexConstructors := (parts.2.map Prod.fst).toFinset
  simpleConstructors \ complexConstructors

/-!  `accumulate_superclass_methods`: one linear pass over the items,
appending a record to the configured base's list for every virtual or
pure-virtual method whose receiver is a configured base. -/

/-- The map from base qualified name to its accumulated method list,
as an association list (the source's `HashMap`; its iteration order is
never observed, only `get`). -/
abbrev SuperclassMap := List (QualifiedName × List SuperclassMethod)

/-- `HashMap::get`: the value at the first matching key. -/
def smapGet (m : SuperclassMap) (q : QualifiedName) : Option (List SuperclassMethod) :=
  (m.find? (fun e => e.1 = q)).map (fun e => e.2)

/-- `get_mut` followed by `push`: append `v` to every entry at key `q`
(entries are keyed uniquely; appending to each matching entry models the
single mutable reference). -/
def smapPush (m : SuperclassMap) (q : QualifiedName) (v : SuperclassMethod) : SuperclassMap :=
  m.map (fun e => if e.1 = q then (e.1, e.2 ++ [v]) else e)

/-- `HashMap::insert` of key `k` with an empty list: replace an existing
entry with the same key, otherwise append. -/
def smapInsertEmpty (m : SuperclassMap) (k : QualifiedName) : SuperclassMap :=
  if (m.find? (fun e => e.1 = k)).isSome
  then m.map (fun e => if e.1 = k then (k, []) else e)
  else m ++ [(k, [])]

/-- `HashMap::extend` over the configured superclasses: insert each key
with an empty list. -/
def smapInit (keys : List QualifiedName) : SuperclassMap :=
  keys.foldl smapInsertEmpty []

/-- The record built and pushed for one virtual / pure-virtual method. -/
def mkSuperclassMethod (name : QualifiedName) (analysis : FnAnalysis)
    (rm : ReceiverMutability) : SuperclassMethod :=
  { name := name.getFinalItem
    params := analysis.params
    paramNames := analysis.paramDetails.map (fun pd => pd.name)
    retType := analysis.retType
    receiverMutability := rm
    requiresUnsafe := analysis.paramDetails.any (fun pd => pd.requiresUnsafe) }

/-- The body of the `for api in apis` loop of
`accumulate_superclass_methods`. -/
def accumulateStep (m : SuperclassMap) (api : Api) : SuperclassMap :=
  match api with
  | .function name analysis =>
    match analysis.kind with
    | .method receiver mk =>
      match mk with
      | .virtualKind rm | .pureVirtualKind rm =>
        if (smapGet m receiver).isSome
        then smapPush m receiver (mkSuperclassMethod name analysis rm)
        else m
      | _ => m
    | _ => m
  | _ => m

/-- `accumulate_superclass_methods`. -/
def accumulate_superclass_methods (config : Config) (apis : List Api) : SuperclassMap :=
  apis.foldl accumulateStep
    (smapInit (config.superclasses.map QualifiedName.newFromCppName))

/-!  The output model.  Each `parse_quote!` template of the source is one
constructor, carrying the interpolated holes. -/

/-- The four `impl ToCppString for ...` target forms of `get_string_items`. -/
inductive StrForm where
  | refStr
  | ownedString
  | refOwnedString
  | uniquePtrCxxString
deriving DecidableEq, Repr

/-- The body of an `into_cpp` conversion impl: a call to `make_string`
(on `self` or `&self`), or returning `self` unchanged. -/
inductive IntoCppBody where
  | callMakeString
  | identity
deriving DecidableEq, Repr

/-- The data interpolated into the forwarding-function body template of
`generate_subclass_fn`: the two panic messages, the borrow/deref flavour,
and the final trait-method call. -/
structure SubclassFnBody where
  destroyMsg : String
  reentrancyMsg : String
  mutableReceiver : Bool
  methodsTrait : String
  methodName : String
  args : List String
deriving DecidableEq, Repr

/-- A member of a generated `impl` block. -/
inductive ImplItemM where
  /-- The single-method placeholder of `generate_error_entry`:
  `#[doc = err] fn method(_uhoh: autocxx::BindingGenerationFailure) {}`. -/
  | placeholderMethod (doc : String) (name : String)
  /-- A `..._super` forwarding method of `generate_subclass`:
  calls `self.peer()/peer_mut().name_super(args...)`. -/
  | superForward (requiresUnsafe : Bool) (name : String) (params : List FnArg)
      (ret : RetType) (peerMut : Bool) (cppMethodName : String) (argNames : List Pat)
deriving DecidableEq, Repr

/-- A member of a generated trait (`add_superclass_stuff_to_type`). -/
inductive TraitItemM where
  /-- `fn name_super(params) ret;` in the supers trait. -/
  | superDecl (requiresUnsafe : Bool) (name : String) (params : List FnArg) (ret : RetType)
  /-- `fn name(params) ret { self.name_super(args...) }` in the methods trait. -/
  | defaultForward (requiresUnsafe : Bool) (name : String) (params : List FnArg)
      (ret : RetType) (superName : String) (args : List String)
deriving DecidableEq, Repr

/-- A generated top-level `syn::Item`. -/
inductive RItem where
  /-- The original (bindgen) struct definition, pushed verbatim for Pod types. -/
  | srcStruct (name : String)
  /-- The original (bindgen) enum definition. -/
  | srcEnum (name : String)
  /-- A struct rewritten by `make_non_pod` / `new_non_pod_struct`. -/
  | nonPodStruct (name : String)
  /-- `Item::Const`, carried verbatim. -/
  | constDef (payload : String)
  /-- `Item::Type`, carried verbatim. -/
  | typeAliasDef (payload : String)
  /-- `Item::Use` from a typedef, carried verbatim. -/
  | useAliasDef (payload : String)
  /-- `pub use seg::...::seg [as alias];`. -/
  | pubUseSegs (segs : List String) (aliasName : Option String)
  /-- `pub mod name { content }`. -/
  | modDef (name : String) (content : List RItem)
  /-- `#[doc = doc] pub struct name;` - the zero-field error placeholder. -/
  | placeholderStruct (doc : String) (name : String)
  /-- `impl ty { items }` - a merged impl block. -/
  | implBlockFor (ty : String) (items : List ImplItemM)
  /-- `unsafe impl cxx::ExternType for path { type Id = type_id!(idString); type Kind = kind; }`. -/
  | externTypeAssertion (path : List String) (idString : String) (kind : String)
  /-- `pub trait ToCppString { fn into_cpp(self) -> UniquePtr<CxxString>; }`. -/
  | toCppStringTrait
  /-- `impl ToCppString for form { fn into_cpp(self) ... { body } }`. -/
  | toCppStringImpl (form : StrForm) (body : IntoCppBody)
  /-- `use self::super::...::super::target;` with `n` `super` segments. -/
  | useSelfSupers (n : Nat) (target : String)
  /-- The generated forwarding free function of `generate_subclass_fn`. -/
  | subclassFnItem (requiresUnsafe : Bool) (name : String) (params : List FnArg)
      (ret : RetType) (body : SubclassFnBody)
  /-- `pub struct Holder(pub CppSubclassRustPeerHolder<super::super::super::id>);`. -/
  | holderStruct (holder : String) (target : String)
  /-- `impl CppSubclassCppPeer for cppId { fn relinquish_ownership(&self) { self.call(); } }`. -/
  | cppPeerImpl (cppId : String) (relinquishCall : String)
  /-- `pub use cxxbridge::#id;`. -/
  | useCxxbridgeId (id : String)
  /-- `pub use bindgen::root::#holder;` (a global item). -/
  | useBindgenRootId (id : String)
  /-- `pub trait SupersName { items }`. -/
  | supersTraitDef (name : String) (items : List TraitItemM)
  /-- `pub trait MethodsName : SupersName { items }`. -/
  | methodsTraitDef (name : String) (superTrait : String) (items : List TraitItemM)
  /-- `impl SupersTrait for super::super::super::#id { impls }`. -/
  | supersImplFor (supersTrait : String) (target : String) (impls : List ImplItemM)
  /-- `impl CppPeerConstructor<cppId> for super::super::super::#id { ... make_unique ... }`. -/
  | peerCtorImpl (cppId : String) (target : String)
  /-- `impl AsRef<superPath> for super::super::super::#id { ... self.peer().asId() }`. -/
  | asRefImplFor (superPath : String) (target : String) (asId : String)
  /-- `impl super::super::super::#id { pub fn pin_mut(...) { self.peer_mut().asMutId() } }`. -/
  | pinMutImplFor (target : String) (asMutId : String)
  /-- `pub fn removeOwnership(me: Box<Holder>) -> Box<Holder> { ... }`. -/
  | removeOwnershipFn (name : String) (holder : String)
  /-- `use super::#path;` (RustType / RustFn global items). -/
  | useSuperPath (path : String)
deriving Repr

/-- A generated `syn::ForeignItem` (an entry of one of the two foreign
mods of the bridge). -/
inductive ForeignItemM where
  /-- `fn name(str_: &str) -> UniquePtr<CxxString>;`. -/
  | fnMakeString (name : String)
  /-- The `generate_cxxbridge_type` verbatim item: optional namespace
  attribute, optional `cxx_name` attribute, optional doc attribute, then
  either `type id = super::bindgen::root::ns::id;` (referencing bindgen)
  or the bare declaration `type id;`. -/
  | cxxbridgeType (nsAttr : Option String) (cxxName : Option String)
      (doc : Option String) (id : String) (refsBindgen : Bool) (bindgenNs : List String)
  /-- `fn call(self: &cppId);` - the relinquish-ownership hook. -/
  | fnRelinquish (name : String) (selfTy : String)
  /-- `fn As_Super(self: &cppId) -> &SuperId;`. -/
  | fnAs (name : String) (selfTy : String) (superId : String)
  /-- `fn As_Super_mut(self: Pin<&mut cppId>) -> Pin<&mut SuperId>;`. -/
  | fnAsMut (name : String) (selfTy : String) (superId : String)
  /-- `include!(file);`. -/
  | includeDirective (file : String)
  /-- `type id = autocxx::id;` (the CType verbatim item). -/
  | cTypeAlias (id : String)
  /-- `type id;` in the extern Rust mod. -/
  | rustTypeDecl (id : String)
  /-- `sig;` in the extern Rust mod. -/
  | rustSigDecl (sig : String)
  /-- The cxxbridge declaration of a subclass forwarding function. -/
  | subclassFnDecl (requiresUnsafe : Bool) (name : String) (params : List FnArg) (ret : RetType)
  /-- `fn name(me: Box<holder>) -> Box<holder>;` in the extern Rust mod. -/
  | removeOwnershipDecl (name : String) (holder : String)
deriving Repr

/-- The `Use` enum: how an item is materialized in the public surface. -/
inductive Use where
  | usedFromCxxBridge
  | usedFromCxxBridgeWithAlias (aliasName : String)
  | usedFromBindgen
  | specificNameFromBindgen (id : String)
  | custom (item : RItem)
deriving Repr

/-- `api::ImplBlockDetails`: one method destined to be merged into the
impl block of type `ty`. -/
structure ImplBlockDetails where
  item : ImplItemM
  ty : String
deriving Repr

/-- `RsCodegenResult`: the per-item output bundle. -/
structure RsCodegenResult where
  extern_c_mod_items : List ForeignItemM := []
  extern_rust_mod_items : List ForeignItemM := []
  bridge_items : List RItem := []
  global_items : List RItem := []
  bindgen_mod_items : List RItem := []
  impl_entry : Option ImplBlockDetails := none
  materializations : List Use := []
deriving Repr

/-- `get_string_items`: the fixed library of string-conversion items. -/
def get_string_items : List RItem :=
  [ RItem.toCppStringTrait
  , RItem.toCppStringImpl .refStr .callMakeString
  , RItem.toCppStringImpl .ownedString .callMakeString
  , RItem.toCppStringImpl .refOwnedString .callMakeString
  , RItem.toCppStringImpl .uniquePtrCxxString .identity ]

/-- `args_from_sig`: skip the first parameter, keep the identifier
patterns of the rest as call arguments. -/
def args_from_sig (params : List FnArg) : List String :=
  (params.drop 1).filterMap fun fnarg =>
    match fnarg with
    | .receiver _ => none
    | .typed pat _ =>
      match pat with
      | .ident s => some s
      | .other => none

/-- The collaborator functions this source file calls but whose bodies
live in other files of the repository (fun_codegen, impl_item_creator,
known_types, non_pod_struct, the SubclassName helpers, the original-name
map renderers).  The embedding is parameterized over them. -/
structure Externals where
  /-- `fun_codegen::gen_function`. -/
  genFunction : List String → FnAnalysis → String → RsCodegenResult
  /-- `impl_item_creator::create_impl_items`. -/
  createImplItems : String → Config → List RItem
  /-- `known_types().conflicts_with_built_in_type` on a root-namespace name. -/
  conflictsWithBuiltIn : String → Bool
  /-- `SubclassName::get_supers_trait_name`, rendered as an identifier. -/
  supersTraitName : QualifiedName → String
  /-- `SubclassName::get_methods_trait_name`, rendered as an identifier. -/
  methodsTraitName : QualifiedName → String
  /-- `SubclassName::id`. -/
  subId : SubclassName → String
  /-- `SubclassName::holder`. -/
  subHolder : SubclassName → String
  /-- `SubclassName::cpp`. -/
  subCpp : SubclassName → QualifiedName
  /-- `SubclassName::remove_ownership`. -/
  subRemoveOwnership : SubclassName → String
  /-- `SubclassName::cpp_remove_ownership`. -/
  subCppRemoveOwnership : SubclassName → String
  /-- `namespaced_name_using_original_name_map`. -/
  originalNameString : QualifiedName → String
  /-- The `original_name_map` lookup. -/
  originalName : QualifiedName → Option String
  /-- `non_pod_struct::make_non_pod` applied to a struct item. -/
  makeNonPodFn : RItem → RItem
  /-- `api.effective_cpp_name()`. -/
  effectiveCppName : Api → String
  /-- `unqualify::unqualify_params` rewrites each typed argument's type
  path and keeps its pattern; the type rewrite itself is external. -/
  unqualifyTy : String → String
  /-- `unqualify::unqualify_ret_type`. -/
  unqualifyRet : RetType → RetType

/-- `unqualify_params`: rewrite argument types, keep patterns. -/
def unqualifyParams (ext : Externals) (params : List FnArg) : List FnArg :=
  params.map fun a =>
    match a with
    | .receiver m => .receiver m
    | .typed pat ty => .typed pat (ext.unqualifyTy ty)

/-- `sanitize_error_ident`: rename an identifier that conflicts with a
built-in type by appending the fixed suffix. -/
def sanitize_error_ident (ext : Externals) (id : String) : Option String :=
  if ext.conflictsWithBuiltIn id then some (id ++ "_autocxx_error") else none

/-- `generate_error_entry`: degrade a failed item into a documented
placeholder bundle. -/
def generate_error_entry (ext : Externals) (err : String) (ctx : ErrorContext) :
    RsCodegenResult :=
  let errText := "autocxx bindings couldn't be generated: " ++ err
  let pair : Option ImplBlockDetails × Option Use :=
    match ctx with
    | .itemCtx id =>
      let id := (sanitize_error_ident ext id).getD id
      (none, some (Use.custom (RItem.placeholderStruct errText id)))
    | .methodCtx selfTy mthd =>
      if sanitize_error_ident ext selfTy = none then
        let mthd := (sanitize_error_ident ext mthd).getD mthd
        (some { item := ImplItemM.placeholderMethod errText mthd, ty := selfTy }, none)
      else
        let id := selfTy ++ "_method_" ++ mthd
        (none, some (Use.custom (RItem.placeholderStruct errText id)))
  { impl_entry := pair.1
    materializations := pair.2.toList }

/-- The destroyed-object panic message of `generate_subclass_fn`. -/
def destroyMsgFor (methodName : String) (sub : SubclassName) (superId : String) : String :=
  "Rust subclass API (method " ++ methodName ++ " of subclass " ++
    sub.name.toCppNameString ++ " of superclass " ++ superId ++
    ") called after subclass destroyed"

/-- The re-entrancy panic message of `generate_subclass_fn`. -/
def reentrancyMsgFor (methodName : String) (sub : SubclassName) (superId : String) : String :=
  "Rust subclass API (method " ++ methodName ++ " of subclass " ++
    sub.name.toCppNameString ++ " of superclass " ++ superId ++
    ") called whilst subclass already borrowed - likely a re-entrant call"

/-- The body `generate_subclass_fn` interpolates into its
`global_items` template: panic messages, borrow flavour and the final
trait-method call with the arguments of the (unqualified) cxxbridge
signature. -/
def subclassFnEmittedBody (ext : Externals) (details : RustSubclassFnDetails)
    (subclass : SubclassName) : SubclassFnBody :=
  let superclassId := details.superclass.getFinalItem
  { destroyMsg := destroyMsgFor details.methodName subclass superclassId
    reentrancyMsg := reentrancyMsgFor details.methodName subclass superclassId
    mutableReceiver := details.receiverMutability = .mutable
    methodsTrait := ext.methodsTraitName details.superclass
    methodName := details.methodName
    args := args_from_sig (unqualifyParams ext details.params) }

/-- `generate_subclass_fn`: the free forwarding function a foreign-side
virtual call lands on, plus its cxxbridge declaration. -/
def generate_subclass_fn (ext : Externals) (apiName : String)
    (details : RustSubclassFnDetails) (subclass : SubclassName) : RsCodegenResult :=
  let uqParams := unqualifyParams ext details.params
  let uqRet := ext.unqualifyRet details.ret
  { global_items :=
      [RItem.subclassFnItem details.requiresUnsafe apiName details.params details.ret
        (subclassFnEmittedBody ext details subclass)]
    extern_rust_mod_items :=
      [ForeignItemM.subclassFnDecl details.requiresUnsafe apiName uqParams uqRet] }

/-!  The operational meaning of the emitted forwarding-function body.
The template is
`let rc = me.0.get().expect(destroyMsg);
 let [mut] b = rc.as_ref().try_borrow[_mut]().expect(reentrancyMsg);
 let r = Deref[Mut]::deref[_mut](&[mut] b);
 MethodsTrait::method(r, args...)`.
`Option::expect` raises its message when the value is absent; `RefCell`
refuses `try_borrow_mut` whenever any borrow is held and `try_borrow`
exactly when an exclusive borrow is held. -/

/-- The borrow state of the `RefCell` holding the host object. -/
inductive BorrowState where
  | free
  | shared (n : Nat)
  | exclusive
deriving DecidableEq, Repr

/-- The runtime state the emitted body observes: whether the back-reference
(`me.0.get()`) still yields the host object, and the cell's borrow state. -/
structure PeerState where
  backrefPresent : Bool
  borrow : BorrowState
deriving DecidableEq, Repr

/-- What one invocation of the emitted body does. -/
inductive CallOutcome where
  | fault (msg : String)
  | invoked (traitName : String) (methodName : String) (args : List String)
deriving DecidableEq, Repr

/-- Run the emitted forwarding body against a runtime state. -/
def runSubclassFnBody (b : SubclassFnBody) (st : PeerState) : CallOutcome :=
  if !st.backrefPresent then
    .fault b.destroyMsg
  else if b.mutableReceiver then
    match st.borrow with
    | .free => .invoked b.methodsTrait b.methodName b.args
    | _ => .fault b.reentrancyMsg
  else
    match st.borrow with
    | .exclusive => .fault b.reentrancyMsg
    | _ => .invoked b.methodsTrait b.methodName b.args

/-- Modelled from the spec: `to_type_path` renders a qualified name as a
Rust path (spec 4.1, nested-path construction); carried as a string. -/
def QualifiedName.toTypePathString (q : QualifiedName) : String :=
  String.intercalate "::" (q.nspace ++ [q.localName])

/-- `generate_extern_type_impl`: the `unsafe impl cxx::ExternType` item
binding the wrapper type's identity string, tagged Trivial for Pod and
Opaque otherwise. -/
def generate_extern_type_impl (ext : Externals) (typeKind : TypeKind)
    (tyname : QualifiedName) : List RItem :=
  let kindItem := match typeKind with | .pod => "Trivial" | _ => "Opaque"
  [RItem.externTypeAssertion tyname.bindgenPathSegs (ext.originalNameString tyname) kindItem]

/-- `generate_cxxbridge_type`: the cxx-side declaration of a type, either
aliased into the bindgen region (`references_bindgen`) or bare. -/
def generate_cxxbridge_type (ext : Externals) (name : QualifiedName)
    (refsBindgen : Bool) (doc : Option String) : ForeignItemM :=
  let ns := name.nspace
  let pair :=
    match ext.originalName name with
    | some cppName =>
      let cpp := QualifiedName.newFromCppName cppName
      (ns ++ cpp.nspace, some cpp.getFinalItem)
    | none => (ns, none)
  let nsAttr := if pair.1.isEmpty then none else some (String.intercalate "::" pair.1)
  ForeignItemM.cxxbridgeType nsAttr pair.2 doc name.localName refsBindgen ns

/-- Collect an Option-valued map over a list, faulting as soon as one
element faults (the embedding of a `map` whose body may `unwrap`). -/
def optionTraverse {α β : Type} (f : α → Option β) : List α → Option (List β)
  | [] => some []
  | a :: rest => (f a).bind fun b => (optionTraverse f rest).map fun bs => b :: bs

/-- `*(params.iter_mut().next().unwrap()) = fp`: replace the first
parameter, or fault (`None`) when the list is empty. -/
def setFirstParam (params : List FnArg) (fp : FnArg) : Option (List FnArg) :=
  match params with
  | [] => none
  | _ :: rest => some (fp :: rest)

/-- One method's pair of trait items in `add_superclass_stuff_to_type`:
the raw `..._super` declaration and the defaulted user-facing method. -/
def superclassTraitItems (m : SuperclassMethod) : Option (TraitItemM × TraitItemM) :=
  let superId := m.name ++ "_super"
  let paramNames := args_from_sig m.params
  let recv : FnArg :=
    match m.receiverMutability with
    | .const => .receiver false
    | .mutable => .receiver true
  (setFirstParam m.params recv).map fun params =>
    (TraitItemM.superDecl m.requiresUnsafe superId params m.retType,
     TraitItemM.defaultForward m.requiresUnsafe m.name params m.retType superId paramNames)

/-- `add_superclass_stuff_to_type`: the items appended to
`bindgen_mod_items` and the uses appended to `materializations`. `none`
models the source's `unwrap` fault on an empty parameter list. -/
def add_superclass_stuff_to_type (ext : Externals) (name : QualifiedName)
    (methods : Option (List SuperclassMethod)) : Option (List RItem × List Use) :=
  match methods with
  | none => some ([], [])
  | some methods =>
    (optionTraverse superclassTraitItems methods).map fun pairs =>
      let supers := pairs.map Prod.fst
      let mains := pairs.map Prod.snd
      let supersName := ext.supersTraitName name
      let methodsName := ext.methodsTraitName name
      ([ RItem.supersTraitDef supersName supers
       , RItem.methodsTraitDef methodsName supersName mains ],
       [ Use.specificNameFromBindgen methodsName
       , Use.specificNameFromBindgen supersName ])

/-- `generate_type`: emission of a record/enum type driven by its
representability tag.  `none` models the source's faults (the
`expect("Instantiable types must provide instance")` and the receiver
rewrite `unwrap` inside `add_superclass_stuff_to_type`). -/
def generate_type (ext : Externals) (config : Config) (name : QualifiedName)
    (id : String) (typeKind : TypeKind) (origItem : Option (RItem × Option String))
    (methods : Option (List SuperclassMethod)) : Option RsCodegenResult :=
  (add_superclass_stuff_to_type ext name methods).bind fun sc =>
    let materializations := Use.usedFromCxxBridge :: sc.2
    match typeKind with
    | .pod | .nonPodNested =>
      origItem.map fun oi =>
        let item :=
          if typeKind = .nonPodNested then
            match oi.1 with
            | RItem.srcStruct s => ext.makeNonPodFn (RItem.srcStruct s)
            | _ => RItem.nonPodStruct id
          else oi.1
        { global_items := generate_extern_type_impl ext typeKind name
          bridge_items := ext.createImplItems id config
          extern_c_mod_items := [generate_cxxbridge_type ext name true none]
          bindgen_mod_items := sc.1 ++ [item]
          materializations := materializations }
    | .nonPod | .abstract =>
      let docAttr := origItem.bind (fun oi => oi.2)
      some { extern_c_mod_items := [generate_cxxbridge_type ext name false docAttr]
             bindgen_mod_items := sc.1 ++ [RItem.useCxxbridgeId id]
             materializations := materializations }

/-- One forwarding method of the `supers`-trait impl in
`generate_subclass`: rewrites the receiver, then defers to the peer
accessor and the `..._super` bridge method with the remaining parameter
names. -/
def subclassMethodImpl (m : SuperclassMethod) : Option ImplItemM :=
  let supern := m.name ++ "_super"
  let cppMethodName := m.name ++ "_super"
  let pm : Bool × FnArg :=
    match m.receiverMutability with
    | .const => (false, .receiver false)
    | .mutable => (true, .receiver true)
  (setFirstParam m.params pm.2).map fun params =>
    ImplItemM.superForward m.requiresUnsafe supern params m.retType pm.1 cppMethodName
      (m.paramNames.drop 1)

/-- `generate_subclass`: the holder, peer impls, forwarding methods,
optional peer constructor and upcast accessors for one derived type.
`none` models the receiver-rewrite `unwrap` fault. -/
def generate_subclass (ext : Externals) (config : Config) (sub : SubclassName)
    (superclass : QualifiedName) (methods : Option (List SuperclassMethod))
    (generatePeerConstructor : Bool) : Option RsCodegenResult :=
  let superName := superclass.getFinalItem
  let superPath := superclass.toTypePathString
  let superCxxxbridgeId := superclass.getFinalItem
  let id := ext.subId sub
  let holder := ext.subHolder sub
  let fullCpp := ext.subCpp sub
  let cppId := fullCpp.getFinalItem
  let relinquishOwnershipCall := ext.subCppRemoveOwnership sub
  let bindgenModItems1 : List RItem :=
    [ RItem.useCxxbridgeId cppId
    , RItem.holderStruct holder id
    , RItem.cppPeerImpl cppId relinquishOwnershipCall ]
  let externCItems1 : List ForeignItemM :=
    [ generate_cxxbridge_type ext fullCpp false none
    , ForeignItemM.fnRelinquish relinquishOwnershipCall cppId ]
  let methodItems? : Option (List RItem) :=
    match methods with
    | none => some []
    | some ms =>
      (optionTraverse subclassMethodImpl ms).map fun impls =>
        [RItem.supersImplFor (ext.supersTraitName superclass) id impls]
  methodItems?.map fun methodItems =>
    let bindgenModItems2 := bindgenModItems1 ++ methodItems ++
      (if generatePeerConstructor then [RItem.peerCtorImpl cppId id] else [])
    let asId := "As_" ++ superName
    let asMutId := "As_" ++ superName ++ "_mut"
    let externCItems2 := externCItems1 ++
      [ ForeignItemM.fnAs asId cppId superCxxxbridgeId
      , ForeignItemM.fnAsMut asMutId cppId superCxxxbridgeId ]
    let bindgenModItems3 := bindgenModItems2 ++
      [ RItem.asRefImplFor superPath id asId
      , RItem.pinMutImplFor id asMutId ]
    let removeOwnership := ext.subRemoveOwnership sub
    { extern_c_mod_items := externCItems2
      bridge_items := ext.createImplItems cppId config
      bindgen_mod_items := bindgenModItems3
      materializations := [Use.custom (RItem.useCxxbridgeId cppId)]
      global_items :=
        [ RItem.useBindgenRootId holder
        , RItem.removeOwnershipFn removeOwnership holder ]
      impl_entry := none
      extern_rust_mod_items :=
        [ ForeignItemM.rustTypeDecl holder
        , ForeignItemM.removeOwnershipDecl removeOwnership holder ] }

/-- `generate_rs_for_api`: the per-item dispatcher.  `none` models the
faults of `generate_type` / `generate_subclass`; every other arm is
total. -/
def generate_rs_for_api (ext : Externals) (config : Config) (api : Api)
    (associatedMethods : SuperclassMap)
    (trivialSubclasses : Finset QualifiedName) : Option RsCodegenResult :=
  let name := api.name
  let id := name.getFinalItem
  let cppCallName := ext.effectiveCppName api
  match api with
  | .stringConstructor _ =>
    some { extern_c_mod_items := [ForeignItemM.fnMakeString config.makestringName]
           global_items := get_string_items
           materializations := [Use.usedFromCxxBridgeWithAlias "make_string"] }
  | .function _ analysis => some (ext.genFunction name.nspace analysis cppCallName)
  | .constItem _ payload =>
    some { bindgen_mod_items := [RItem.constDef payload]
           materializations := [Use.usedFromBindgen] }
  | .typedef _ kind =>
    some { bindgen_mod_items :=
             [match kind with
              | .tyAlias p => RItem.typeAliasDef p
              | .useAlias p => RItem.useAliasDef p]
           materializations := [Use.usedFromBindgen] }
  | .structItem _ kind docAttr =>
    generate_type ext config name id kind (some (RItem.srcStruct id, docAttr))
      (smapGet associatedMethods name)
  | .enumItem _ docAttr =>
    generate_type ext config name id .pod (some (RItem.srcEnum id, docAttr))
      (smapGet associatedMethods name)
  | .forwardDeclaration _ | .concreteType _ =>
    generate_type ext config name id .abstract none (smapGet associatedMethods name)
  | .cType _ =>
    some { extern_c_mod_items := [ForeignItemM.cTypeAlias id] }
  | .rustType _ path =>
    some { global_items := [RItem.useSuperPath path]
           extern_rust_mod_items := [ForeignItemM.rustTypeDecl id] }
  | .rustFn _ sig path =>
    some { global_items := [RItem.useSuperPath path]
           extern_rust_mod_items := [ForeignItemM.rustSigDecl sig] }
  | .rustSubclassFn _ details sub => some (generate_subclass_fn ext id details sub)
  | .subclass sub superclass =>
    generate_subclass ext config sub superclass (smapGet associatedMethods superclass)
      (sub.name ∈ trivialSubclasses)
  | .rustSubclassConstructor _ _ => some {}
  | .ignoredItem _ err ctx => some (generate_error_entry ext err ctx)

/-!  The namespace tree.  `namespace_organizer::NamespaceEntries` is code
of this repository that is not under src/, so the tree and its builder are
modelled from the spec (3, 4.2): a node holds the payloads belonging
exactly at its level, in input order, and a mapping from segment name to
child node; the builder is a single pass grouping a flat ordered sequence
of (path, payload) pairs.  The two renderers over the tree
(`append_child_use_namespace`, `append_child_bindgen_namespace`) are from
the source. -/

mutual

/-- A namespace tree node: ordered entries at this level plus children. -/
inductive NSTree (T : Type) where
  | node (entries : List T) (children : NSForest T)

/-- The ordered children of a node, keyed by namespace segment. -/
inductive NSForest (T : Type) where
  | nil
  | cons (seg : String) (child : NSTree T) (rest : NSForest T)

end

/-- The payloads whose remaining path is empty, in input order. -/
def entriesHere {T : Type} (items : List (List String × T)) : List T :=
  items.filterMap fun pv => if pv.1 = [] then some pv.2 else none

/-- First-occurrence deduplication, preserving first-seen order. -/
def firstDedup (l : List String) : List String :=
  l.foldl (fun acc s => if s ∈ acc then acc else acc ++ [s]) []

/-- The distinct leading segments of the items that descend further. -/
def childSegs {T : Type} (items : List (List String × T)) : List String :=
  firstDedup (items.filterMap fun pv => pv.1.head?)

/-- The items under leading segment `s`, with that segment stripped. -/
def itemsUnder {T : Type} (items : List (List String × T)) (s : String) :
    List (List String × T) :=
  items.filterMap fun pv =>
    match pv.1 with
    | [] => none
    | k :: rest => if k = s then some (rest, pv.2) else none

/-- Build the forest of children, one per segment, using `build` for each
child's item list. -/
def buildForestList {T : Type} (build : List (List String × T) → NSTree T)
    (items : List (List String × T)) : List String → NSForest T
  | [] => .nil
  | s :: rest => .cons s (build (itemsUnder items s)) (buildForestList build items rest)

/-- Modelled from the spec: the namespace-tree builder (spec 4.2), by
recursion on a depth bound that the caller chooses at least as large as
every path length. -/
def buildTree {T : Type} : Nat → List (List String × T) → NSTree T
  | 0, items => .node (entriesHere items) .nil
  | fuel + 1, items =>
    .node (entriesHere items)
      (buildForestList (fun its => buildTree fuel its) items (childSegs items))

/-- The largest path length among the items. -/
def depthBound {T : Type} (items : List (List String × T)) : Nat :=
  items.foldl (fun m pv => max m pv.1.length) 0

/-- `NamespaceEntries::new`, over pre-extracted (path, payload) pairs. -/
def namespaceEntriesNew {T : Type} (items : List (List String × T)) : NSTree T :=
  buildTree (depthBound items) items

mutual

/-- `NamespaceEntries::is_empty`: no entries at this level and no
non-empty descendant. -/
def NSTree.isEmptyB {T : Type} : NSTree T → Bool
  | .node es cs => es.isEmpty && cs.allEmptyB

/-- All children of the forest are empty in the sense of `isEmptyB`. -/
def NSForest.allEmptyB {T : Type} : NSForest T → Bool
  | .nil => true
  | .cons _ c rest => c.isEmptyB && rest.allEmptyB

end

/-- One (name, bundle) pair as grouped by the namespace tree. -/
abbrev NsEntry := QualifiedName × RsCodegenResult

/-- `generate_cxx_use_stmt`: `pub use super::...::cxxbridge::name [as alias];`. -/
def generate_cxx_use_stmt (name : QualifiedName) (aliasName : Option String) : RItem :=
  RItem.pubUseSegs
    (List.replicate name.nspace.length "super" ++ ["cxxbridge", name.localName]) aliasName

/-- `generate_bindgen_use_stmt`: `pub use super::...::bindgen::root::ns::name;`. -/
def generate_bindgen_use_stmt (name : QualifiedName) : RItem :=
  RItem.pubUseSegs
    (List.replicate name.nspace.length "super" ++ name.bindgenPathSegs) none

/-- One entry's contribution to the 'use' hierarchy: its materialization
directives rendered in order. -/
def materializeEntry (e : NsEntry) : List RItem :=
  e.2.materializations.map fun m =>
    match m with
    | .usedFromCxxBridgeWithAlias a => generate_cxx_use_stmt e.1 (some a)
    | .usedFromCxxBridge => generate_cxx_use_stmt e.1 none
    | .usedFromBindgen => generate_bindgen_use_stmt e.1
    | .specificNameFromBindgen idn => generate_bindgen_use_stmt ⟨e.1.nspace, idn⟩
    | .custom it => it

mutual

/-- `append_child_use_namespace`: entry materializations in order, then a
`pub mod` per non-empty child. -/
def append_child_use_namespace : NSTree NsEntry → List RItem
  | .node es cs => (es.map materializeEntry).flatten ++ appendChildUseForest cs

/-- The per-child loop of `append_child_use_namespace`: children whose
subtree `is_empty` are skipped. -/
def appendChildUseForest : NSForest NsEntry → List RItem
  | .nil => []
  | .cons k c rest =>
    (if c.isEmptyB then [] else [RItem.modDef k (append_child_use_namespace c)]) ++
      appendChildUseForest rest

end

/-- `generate_final_use_statements`. -/
def generate_final_use_statements (input : List NsEntry) : List RItem :=
  append_child_use_namespace (namespaceEntriesNew (input.map fun e => (e.1.nspace, e)))

/-- The `(type, method)` pairs inserted into `impl_entries_by_type`, in
entry order (per-key order inside the HashMap's `Vec`s is this order). -/
def implPairs (es : List NsEntry) : List (String × ImplItemM) :=
  es.filterMap fun e => e.2.impl_entry.map fun d => (d.ty, d.item)

/-- The methods collected for type `ty`, in insertion order. -/
def implGroup (ps : List (String × ImplItemM)) (ty : String) : List ImplItemM :=
  ps.filterMap fun p => if p.1 = ty then some p.2 else none

/-- The key set of `impl_entries_by_type`, in first-insertion order. -/
def implKeys (ps : List (String × ImplItemM)) : List String :=
  firstDedup (ps.map Prod.fst)

/-- `for (ty, entries) in impl_entries_by_type.into_iter()`: one merged
impl block per key, in the HashMap's iteration order `order`. -/
def renderImplBlocks (order : List String) (ps : List (String × ImplItemM)) : List RItem :=
  order.map fun ty => RItem.implBlockFor ty (implGroup ps ty)

/-- An iteration-order choice for `HashMap::into_iter`.  Rust's std
HashMap promises only that iteration visits each key exactly once; which
permutation it yields depends on the per-instance random hash seed, so the
embedding passes the choice in explicitly. -/
abbrev ImplOrderFn := List (String × ImplItemM) → List String

/-- An order function is a possible HashMap iteration: a permutation of
the key set. -/
def ValidImplOrder (orderf : ImplOrderFn) : Prop :=
  ∀ ps, (orderf ps).Perm (implKeys ps)

/-- `append_uses_for_ns`: the three (or two) `use self::super::...`
statements appended inside each bindgen mod. -/
def append_uses_for_ns (config : Config) (ns : List String) : List RItem :=
  [RItem.useSelfSupers (ns.length + 2) "cxxbridge"] ++
    (if config.excludeUtilities then []
     else [RItem.useSelfSupers (ns.length + 2) "ToCppString"]) ++
    [RItem.useSelfSupers (ns.length + 1) "root"]

mutual

/-- `append_child_bindgen_namespace`: each entry's bindgen items in order,
then the merged impl blocks in HashMap iteration order, then a `pub mod`
per child whose rendered content is non-empty. -/
def append_child_bindgen_namespace (config : Config) (orderf : ImplOrderFn) :
    NSTree NsEntry → List String → List RItem
  | .node es cs, ns =>
    (es.map fun e => e.2.bindgen_mod_items).flatten ++
      renderImplBlocks (orderf (implPairs es)) (implPairs es) ++
      appendChildBindgenForest config orderf cs ns

/-- The per-child loop of `append_child_bindgen_namespace`. -/
def appendChildBindgenForest (config : Config) (orderf : ImplOrderFn) :
    NSForest NsEntry → List String → List RItem
  | .nil, _ => []
  | .cons k c rest, ns =>
    (let inner := append_child_bindgen_namespace config orderf c (ns ++ [k])
     if inner.isEmpty then []
     else [RItem.modDef k (inner ++ append_uses_for_ns config (ns ++ [k]))]) ++
      appendChildBindgenForest config orderf rest ns

end

/-- `generate_final_bindgen_mods`. -/
def generate_final_bindgen_mods (config : Config) (orderf : ImplOrderFn)
    (input : List NsEntry) : List RItem :=
  append_child_bindgen_namespace config orderf
    (namespaceEntriesNew (input.map fun e => (e.1.nspace, e))) [] ++
    append_uses_for_ns config []

/-!  Statement helpers: projections and specification-side definitions the
theorems below compare the source functions against, plus concrete
instantiations of the external collaborators for evaluating witnesses. -/

/-- The call argument contributed by one `FnArg` (the body of the
`args_from_sig` map): identifier patterns survive, receivers and other
patterns do not. -/
def patIdent : FnArg → Option String
  | .receiver _ => none
  | .typed pat _ =>
    match pat with
    | .ident s => some s
    | .other => none

/-- Specification-side description of base-method accumulation: the
records of the virtual / pure-virtual `Function` items whose receiver is
`B`, in input order. -/
def virtualMethodsOn (B : QualifiedName) (apis : List Api) : List SuperclassMethod :=
  apis.filterMap fun api =>
    match api with
    | .function name analysis =>
      match analysis.kind with
      | .method receiver mk =>
        match mk with
        | .virtualKind rm | .pureVirtualKind rm =>
          if receiver = B then some (mkSuperclassMethod name analysis rm) else none
        | _ => none
      | _ => none
    | _ => none

/-- A plain re-export materialization, in the sense of spec 3's list of
materialization directives: a re-export with no alias, no renamed source
and no custom item. -/
def Use.isPlainReexport : Use → Bool
  | .usedFromCxxBridge => true
  | .usedFromBindgen => true
  | _ => false

/-- The `into_cpp` body of a string-conversion impl, if the item is one. -/
def intoCppBodyOf : RItem → Option IntoCppBody
  | .toCppStringImpl _ b => some b
  | _ => none

/-- The name a cxx-bridge foreign type declaration declares, if the item
is one. -/
def declaredId : ForeignItemM → Option String
  | .cxxbridgeType _ _ _ id _ _ => some id
  | _ => none

/-- The target type of a merged impl block, if the item is one. -/
def implTyOf : RItem → Option String
  | .implBlockFor ty _ => some ty
  | _ => none

/-- Look a segment up among a node's children (first match). -/
def NSForest.findSeg {T : Type} : NSForest T → String → Option (NSTree T)
  | .nil, _ => none
  | .cons k c rest, s => if k = s then some c else NSForest.findSeg rest s

/-- Navigate a namespace tree along a path and return the entry list of
the node reached, if any. -/
def entriesAtPath {T : Type} : NSTree T → List String → Option (List T)
  | .node es _, [] => some es
  | .node _ cs, s :: rest => (cs.findSeg s).bind fun c => entriesAtPath c rest

/-- `entriesAtPath` with the empty list for unreachable paths. -/
def entriesListAt {T : Type} (t : NSTree T) (p : List String) : List T :=
  (entriesAtPath t p).getD []

/-- A concrete instantiation of the external collaborators, used to
evaluate the generators on closed inputs. -/
def extDefault : Externals :=
  { genFunction := fun _ _ _ => {}
    createImplItems := fun _ _ => []
    conflictsWithBuiltIn := fun s => s == "u8"
    supersTraitName := fun q => q.localName ++ "_supers"
    methodsTraitName := fun q => q.localName ++ "_methods"
    subId := fun s => s.name.localName
    subHolder := fun s => s.name.localName ++ "Holder"
    subCpp := fun s => ⟨s.name.nspace, s.name.localName ++ "Cpp"⟩
    subRemoveOwnership := fun s => s.name.localName ++ "_remove_ownership"
    subCppRemoveOwnership := fun s => s.name.localName ++ "_relinquish_ownership"
    originalNameString := fun q => q.toCppNameString
    originalName := fun _ => none
    makeNonPodFn := fun it => it
    effectiveCppName := fun a => a.name.localName
    unqualifyTy := fun t => t
    unqualifyRet := fun r => r }

/-- A concrete configuration for witnesses. -/
def cfg0 : Config :=
  { superclasses := []
    excludeUtilities := false
    makestringName := "autocxx_make_string_0x1"
    modName := "ffi" }

/-- Two member-of-type error bundles targeting distinct types, both in
the root namespace: the smallest input that makes
`impl_entries_by_type` hold two keys. -/
def implOrderInput : List NsEntry :=
  [ (⟨[], "A_m1"⟩, generate_error_entry extDefault "eA" (.methodCtx "A" "m1"))
  , (⟨[], "B_m2"⟩, generate_error_entry extDefault "eB" (.methodCtx "B" "m2")) ]

/-- A concrete forwarding-function description for witnesses: a const
receiver and one named value parameter. -/
def sfd0 : RustSubclassFnDetails :=
  { params := [FnArg.receiver false, FnArg.typed (Pat.ident "x") "u32"]
    ret := RetType.default
    methodName := "m"
    superclass := ⟨[], "Base"⟩
    receiverMutability := .const
    requiresUnsafe := false }

/-- A concrete subclass name for witnesses. -/
def sub0 : SubclassName := ⟨⟨[], "Derived"⟩⟩

/-- A concrete accumulated method for witnesses: a receiver and one
value parameter. -/
def scm0 : SuperclassMethod :=
  { name := "m"
    params := [FnArg.receiver false, FnArg.typed (Pat.ident "x") "u32"]
    paramNames := [Pat.ident "self", Pat.ident "x"]
    retType := RetType.default
    receiverMutability := .const
    requiresUnsafe := false }

/-!  Theorems.  Each claim Cn of the specification has exactly one theorem
below, preceded by helper lemmas shared across claims. -/

/-- Membership in the trivially-constructed set is exactly "has a trivial
constructor and no non-trivial one". -/
theorem mem_find_trivially_iff (apis : List Api) (qn : QualifiedName) :
    qn ∈ find_trivially_constructed_subclasses apis ↔
      ((qn, true) ∈ subclassConstructorPairs apis ∧
       (qn, false) ∉ subclassConstructorPairs apis) := by
  simp only [find_trivially_constructed_subclasses, List.partition_eq_filter_filter,
    Finset.mem_sdiff, List.mem_toFinset, List.mem_map, List.mem_filter]
  constructor
  · rintro ⟨⟨⟨a, b⟩, ⟨hmem, hb⟩, rfl⟩, hnot⟩
    cases b
    · simp at hb
    · refine ⟨hmem, fun hfalse => hnot ⟨(a, false), ⟨hfalse, ?_⟩, rfl⟩⟩
      simp
  · rintro ⟨htriv, hnontriv⟩
    refine ⟨⟨(qn, true), ⟨htriv, ?_⟩, rfl⟩, ?_⟩
    · simp
    · rintro ⟨⟨a, b⟩, ⟨hmem, hb⟩, rfl⟩
      cases b
      · exact hnontriv hmem
      · simp at hb

/-- C2: `find_trivially_constructed_subclasses` returns exactly the set
difference trivial minus non-trivial over the qualified names of
`RustSubclassConstructor` items; consequently a derived type with
constructors (trivial, trivial) is eligible, (trivial, non-trivial) is
not, (non-trivial) is not, and no declared constructor is not. -/
theorem c2_trivially_constructed_subclasses :
    (∀ (apis : List Api) (qn : QualifiedName),
      qn ∈ find_trivially_constructed_subclasses apis ↔
        ((qn, true) ∈ subclassConstructorPairs apis ∧
         (qn, false) ∉ subclassConstructorPairs apis)) ∧
    (⟨[], "D"⟩ : QualifiedName) ∈ find_trivially_constructed_subclasses
      [Api.rustSubclassConstructor ⟨⟨[], "D"⟩⟩ true,
       Api.rustSubclassConstructor ⟨⟨[], "D"⟩⟩ true] ∧
    (⟨[], "D"⟩ : QualifiedName) ∉ find_trivially_constructed_subclasses
      [Api.rustSubclassConstructor ⟨⟨[], "D"⟩⟩ true,
       Api.rustSubclassConstructor ⟨⟨[], "D"⟩⟩ false] ∧
    (⟨[], "D"⟩ : QualifiedName) ∉ find_trivially_constructed_subclasses
      [Api.rustSubclassConstructor ⟨⟨[], "D"⟩⟩ false] ∧
    (⟨[], "D"⟩ : QualifiedName) ∉ find_trivially_constructed_subclasses [] :=
  ⟨mem_find_trivially_iff, by decide, by decide, by decide, by decide⟩

/-- Witness for C2 at a concrete item list. -/
theorem c2_witness :
    (⟨[], "W"⟩ : QualifiedName) ∈ find_trivially_constructed_subclasses
      [Api.rustSubclassConstructor ⟨⟨[], "W"⟩⟩ true] :=
  (c2_trivially_constructed_subclasses.1 _ _).mpr (by decide)

/-- C6 counterexample: for a whole-item failure the single materialization
is a fully custom item (the placeholder struct itself), not a plain
re-export; the claim's "plain re-export materialization" fails on it. -/
theorem c6_counterexample_custom_not_plain :
    (generate_error_entry extDefault "X" (.itemCtx "A")).materializations =
      [Use.custom (RItem.placeholderStruct
        "autocxx bindings couldn't be generated: X" "A")] ∧
    ((generate_error_entry extDefault "X" (.itemCtx "A")).materializations.map
      Use.isPlainReexport) = [false] :=
  ⟨rfl, rfl⟩

/-- C6 (amended): a whole-item failure produces exactly one artifact, a
zero-field placeholder struct carrying the error text as documentation,
emitted as a single custom-item materialization; the identifier gets the
fixed suffix when it collides with a built-in type name; every other
bundle field is empty and emission is total. -/
theorem c6_whole_item_error_placeholder :
    ∀ (ext : Externals) (err id : String),
      generate_error_entry ext err (.itemCtx id) =
        { impl_entry := none
          materializations := [Use.custom (RItem.placeholderStruct
            ("autocxx bindings couldn't be generated: " ++ err)
            (if ext.conflictsWithBuiltIn id then id ++ "_autocxx_error" else id))]
          extern_c_mod_items := []
          extern_rust_mod_items := []
          bridge_items := []
          global_items := []
          bindgen_mod_items := [] } := by
  intro ext err id
  by_cases h : ext.conflictsWithBuiltIn id <;>
    simp [generate_error_entry, sanitize_error_ident, h]

/-- Witness for C6's amended theorem at a colliding identifier. -/
theorem c6_witness :
    generate_error_entry extDefault "X" (.itemCtx "u8") =
      { impl_entry := none
        materializations := [Use.custom (RItem.placeholderStruct
          "autocxx bindings couldn't be generated: X" "u8_autocxx_error")]
        extern_c_mod_items := []
        extern_rust_mod_items := []
        bridge_items := []
        global_items := []
        bindgen_mod_items := [] } :=
  c6_whole_item_error_placeholder extDefault "X" "u8"

/-- C7: a member-of-type failure becomes a single-method placeholder
impl-merge entry keyed by the owning type when that type's identifier is
representable, and degrades to a top-level placeholder struct named
`selfTy_method_method` (with no impl entry) when it is not. -/
theorem c7_member_error_entry :
    ∀ (ext : Externals) (err selfTy mthd : String),
      (ext.conflictsWithBuiltIn selfTy = false →
        generate_error_entry ext err (.methodCtx selfTy mthd) =
          { impl_entry := some
              { item := ImplItemM.placeholderMethod
                  ("autocxx bindings couldn't be generated: " ++ err)
                  (if ext.conflictsWithBuiltIn mthd then mthd ++ "_autocxx_error" else mthd)
                ty := selfTy }
            materializations := [] }) ∧
      (ext.conflictsWithBuiltIn selfTy = true →
        generate_error_entry ext err (.methodCtx selfTy mthd) =
          { impl_entry := none
            materializations := [Use.custom (RItem.placeholderStruct
              ("autocxx bindings couldn't be generated: " ++ err)
              (selfTy ++ "_method_" ++ mthd))] }) := by
  intro ext err selfTy mthd
  constructor
  · intro h
    by_cases hm : ext.conflictsWithBuiltIn mthd <;>
      simp [generate_error_entry, sanitize_error_ident, h, hm]
  · intro h
    simp [generate_error_entry, sanitize_error_ident, h]

/-- Witness for C7: a representable owning type and a degraded one. -/
theorem c7_witness :
    generate_error_entry extDefault "X" (.methodCtx "T" "m") =
      { impl_entry := some
          { item := ImplItemM.placeholderMethod
              "autocxx bindings couldn't be generated: X" "m"
            ty := "T" }
        materializations := [] } ∧
    generate_error_entry extDefault "Y" (.methodCtx "u8" "g") =
      { impl_entry := none
        materializations := [Use.custom (RItem.placeholderStruct
          "autocxx bindings couldn't be generated: Y" "u8_method_g")] } :=
  ⟨(c7_member_error_entry extDefault "X" "T" "m").1 (by decide),
   (c7_member_error_entry extDefault "Y" "u8" "g").2 (by decide)⟩

/-- C10 counterexample: the conversion impl for an already-foreign-owned
string does not call `make_string`; its body returns `self` unchanged. -/
theorem c10_counterexample_unique_ptr_impl :
    get_string_items.map intoCppBodyOf =
      [none, some .callMakeString, some .callMakeString, some .callMakeString,
       some .identity] := rfl

/-- C10 (amended): the StringConstructor bundle declares the bridge
allocation function under the configured makestring name, materializes it
under the fixed alias `make_string` independently of configuration, and
emits the fixed conversion items: the impls for borrowed text, owned text
and borrowed-owned text call `make_string`, while the impl for an
already-foreign-owned string returns it unchanged. -/
theorem c10_string_constructor_bundle :
    ∀ (ext : Externals) (config : Config) (assoc : SuperclassMap)
      (ts : Finset QualifiedName) (n : QualifiedName),
      generate_rs_for_api ext config (.stringConstructor n) assoc ts =
        some { extern_c_mod_items := [ForeignItemM.fnMakeString config.makestringName]
               global_items := get_string_items
               materializations := [Use.usedFromCxxBridgeWithAlias "make_string"] } ∧
      get_string_items =
        [ RItem.toCppStringTrait
        , RItem.toCppStringImpl .refStr .callMakeString
        , RItem.toCppStringImpl .ownedString .callMakeString
        , RItem.toCppStringImpl .refOwnedString .callMakeString
        , RItem.toCppStringImpl .uniquePtrCxxString .identity ] :=
  fun _ _ _ _ _ => ⟨rfl, rfl⟩

/-- `patIdent` is unaffected by the unqualification type rewrite. -/
theorem patIdent_unqualify (ext : Externals) (a : FnArg) :
    patIdent (match a with
      | .receiver m => FnArg.receiver m
      | .typed pat ty => FnArg.typed pat (ext.unqualifyTy ty)) = patIdent a := by
  cases a <;> rfl

/-- The argument list of the emitted cxxbridge signature: the receiver is
dropped and the remaining identifier patterns survive in their original
order; rewriting the types does not change it. -/
theorem args_from_sig_unqualify (ext : Externals) (ps : List FnArg) :
    args_from_sig (unqualifyParams ext ps) = (ps.drop 1).filterMap patIdent := by
  have h1 : args_from_sig (unqualifyParams ext ps) =
      ((unqualifyParams ext ps).drop 1).filterMap patIdent := rfl
  rw [h1, unqualifyParams, ← List.map_drop, List.filterMap_map]
  congr 1
  funext a
  exact patIdent_unqualify ext a

/-- C5: the forwarding-function body emitted by `generate_subclass_fn`
follows the strict protocol: with the back-reference absent it raises the
destroyed fault (whose message names the method, subclass and superclass)
for every borrow state; with the borrow already held it raises the
re-entrancy fault instead of proceeding (any held borrow for a mutable
receiver, an exclusive borrow for a shared one); and only on successful
acquisition does it invoke the original method through the methods trait
with the remaining arguments in original order. -/
theorem c5_subclass_fn_protocol :
    ∀ (ext : Externals) (apiName : String) (details : RustSubclassFnDetails)
      (subclass : SubclassName) (st : PeerState),
      (generate_subclass_fn ext apiName details subclass).global_items =
        [RItem.subclassFnItem details.requiresUnsafe apiName details.params details.ret
          (subclassFnEmittedBody ext details subclass)] ∧
      (subclassFnEmittedBody ext details subclass).destroyMsg =
        destroyMsgFor details.methodName subclass details.superclass.getFinalItem ∧
      (subclassFnEmittedBody ext details subclass).args =
        (details.params.drop 1).filterMap patIdent ∧
      (st.backrefPresent = false →
        runSubclassFnBody (subclassFnEmittedBody ext details subclass) st =
          .fault (destroyMsgFor details.methodName subclass
            details.superclass.getFinalItem)) ∧
      (st.backrefPresent = true → details.receiverMutability = .mutable →
        st.borrow ≠ .free →
        runSubclassFnBody (subclassFnEmittedBody ext details subclass) st =
          .fault (reentrancyMsgFor details.methodName subclass
            details.superclass.getFinalItem)) ∧
      (st.backrefPresent = true → details.receiverMutability = .const →
        st.borrow = .exclusive →
        runSubclassFnBody (subclassFnEmittedBody ext details subclass) st =
          .fault (reentrancyMsgFor details.methodName subclass
            details.superclass.getFinalItem)) ∧
      (st.backrefPresent = true →
        (details.receiverMutability = .mutable → st.borrow = .free) →
        (details.receiverMutability = .const → st.borrow ≠ .exclusive) →
        runSubclassFnBody (subclassFnEmittedBody ext details subclass) st =
          .invoked (ext.methodsTraitName details.superclass) details.methodName
            ((details.params.drop 1).filterMap patIdent)) := by
  intro ext apiName details subclass st
  obtain ⟨br, bo⟩ := st
  refine ⟨rfl, rfl, args_from_sig_unqualify ext details.params, ?_, ?_, ?_, ?_⟩
  · rintro rfl
    simp [runSubclassFnBody, subclassFnEmittedBody]
  · rintro rfl hmut hbo
    cases hb : bo with
    | free => exact absurd hb hbo
    | shared n => simp [runSubclassFnBody, subclassFnEmittedBody, hmut]
    | exclusive => simp [runSubclassFnBody, subclassFnEmittedBody, hmut]
  · rintro rfl hconst rfl
    simp [runSubclassFnBody, subclassFnEmittedBody, hconst]
  · rintro rfl hmutfree hconstnotex
    cases hrm : details.receiverMutability with
    | mutable =>
      have := hmutfree hrm
      subst this
      simp [runSubclassFnBody, subclassFnEmittedBody, hrm, args_from_sig_unqualify]
    | const =>
      have hne := hconstnotex hrm
      cases hb : bo with
      | free => simp [runSubclassFnBody, subclassFnEmittedBody, hrm, args_from_sig_unqualify]
      | shared n => simp [runSubclassFnBody, subclassFnEmittedBody, hrm, args_from_sig_unqualify]
      | exclusive => exact absurd hb hne

/-- Witness for C5: with the back-reference absent the concrete emitted
body raises the destroyed fault. -/
theorem c5_witness :
    runSubclassFnBody (subclassFnEmittedBody extDefault sfd0 sub0) ⟨false, .free⟩ =
      .fault (destroyMsgFor sfd0.methodName sub0 sfd0.superclass.getFinalItem) :=
  (c5_subclass_fn_protocol extDefault "fn0" sfd0 sub0 ⟨false, .free⟩).2.2.2.1 rfl

/-- An Option-valued map over a list succeeds exactly when it succeeds on
every element. -/
theorem optionTraverse_isSome {α β : Type} (f : α → Option β) :
    ∀ l : List α, (optionTraverse f l).isSome = true ↔ ∀ a ∈ l, (f a).isSome = true := by
  intro l
  induction l with
  | nil => simp [optionTraverse]
  | cons a t ih =>
    rw [optionTraverse]
    cases hfa : f a <;> simp [hfa, ih]

/-- `subclassMethodImpl` faults exactly on an empty parameter list. -/
theorem subclassMethodImpl_isSome (m : SuperclassMethod) :
    (subclassMethodImpl m).isSome = true ↔ m.params ≠ [] := by
  cases hp : m.params <;> simp [subclassMethodImpl, setFirstParam, hp]

/-- `superclassTraitItems` faults exactly on an empty parameter list. -/
theorem superclassTraitItems_isSome (m : SuperclassMethod) :
    (superclassTraitItems m).isSome = true ↔ m.params ≠ [] := by
  cases hp : m.params <;> simp [superclassTraitItems, setFirstParam, hp]

/-- C9: subclass emission succeeds when every accumulated method has a
non-empty parameter list (a receiver), and unconditionally faults (the
receiver-rewriting unwrap) as soon as some accumulated method has an
empty parameter list - in both `generate_subclass` and
`add_superclass_stuff_to_type`. -/
theorem c9_subclass_emission :
    ∀ (ext : Externals) (config : Config) (sub : SubclassName)
      (superclass : QualifiedName) (methods : List SuperclassMethod) (g : Bool),
      ((∀ m ∈ methods, m.params ≠ []) →
        (generate_subclass ext config sub superclass (some methods) g).isSome = true ∧
        (add_superclass_stuff_to_type ext superclass (some methods)).isSome = true) ∧
      ((∃ m ∈ methods, m.params = []) →
        generate_subclass ext config sub superclass (some methods) g = none ∧
        add_superclass_stuff_to_type ext superclass (some methods) = none) := by
  intro ext config sub superclass methods g
  constructor
  · intro hall
    have h1 : (optionTraverse subclassMethodImpl methods).isSome = true :=
      (optionTraverse_isSome _ _).mpr fun m hm =>
        (subclassMethodImpl_isSome m).mpr (hall m hm)
    have h2 : (optionTraverse superclassTraitItems methods).isSome = true :=
      (optionTraverse_isSome _ _).mpr fun m hm =>
        (superclassTraitItems_isSome m).mpr (hall m hm)
    obtain ⟨impls, hi⟩ := Option.isSome_iff_exists.mp h1
    obtain ⟨tr, ht⟩ := Option.isSome_iff_exists.mp h2
    constructor
    · simp [generate_subclass, hi]
    · simp [add_superclass_stuff_to_type, ht]
  · rintro ⟨m, hm, hp⟩
    have h1 : optionTraverse subclassMethodImpl methods = none := by
      rw [← Option.not_isSome_iff_eq_none]
      intro hs
      have := (optionTraverse_isSome _ _).mp hs m hm
      rw [subclassMethodImpl_isSome] at this
      exact this hp
    have h2 : optionTraverse superclassTraitItems methods = none := by
      rw [← Option.not_isSome_iff_eq_none]
      intro hs
      have := (optionTraverse_isSome _ _).mp hs m hm
      rw [superclassTraitItems_isSome] at this
      exact this hp
    constructor
    · simp [generate_subclass, h1]
    · simp [add_superclass_stuff_to_type, h2]

/-- Witness for C9: emission succeeds on a well-formed method and faults
on a method with an empty parameter list. -/
theorem c9_witness :
    (generate_subclass extDefault cfg0 sub0 ⟨[], "Base"⟩ (some [scm0]) true).isSome = true ∧
    generate_subclass extDefault cfg0 sub0 ⟨[], "Base"⟩
      (some [{ scm0 with params := [] }]) true = none :=
  ⟨((c9_subclass_emission extDefault cfg0 sub0 ⟨[], "Base"⟩ [scm0] true).1
      (by decide)).1,
   ((c9_subclass_emission extDefault cfg0 sub0 ⟨[], "Base"⟩
      [{ scm0 with params := [] }] true).2
      ⟨{ scm0 with params := [] }, by simp, rfl⟩).1⟩

/-- `smapGet` on a cons cell. -/
theorem smapGet_cons (k : QualifiedName) (l : List SuperclassMethod)
    (rest : SuperclassMap) (B : QualifiedName) :
    smapGet ((k, l) :: rest) B = if k = B then some l else smapGet rest B := by
  have hfind : List.find? (fun (e : QualifiedName × List SuperclassMethod) =>
      decide (e.1 = B)) ((k, l) :: rest) =
      if k = B then some (k, l)
      else List.find? (fun e => decide (e.1 = B)) rest := by
    rw [List.find?_cons]
    by_cases h : k = B <;> simp [h]
  rw [smapGet, hfind]
  by_cases h : k = B
  · rw [if_pos h, if_pos h]
    rfl
  · rw [if_neg h, if_neg h]
    rfl

/-- `smapPush` on a cons cell. -/
theorem smapPush_cons (k : QualifiedName) (l : List SuperclassMethod)
    (rest : SuperclassMap) (q : QualifiedName) (v : SuperclassMethod) :
    smapPush ((k, l) :: rest) q v =
      (if k = q then (k, l ++ [v]) else (k, l)) :: smapPush rest q v := by
  by_cases h : k = q <;> simp [smapPush, h]

/-- Pushing onto key `q` appends to that entry and leaves others alone. -/
theorem smapGet_smapPush (m : SuperclassMap) (q B : QualifiedName) (v : SuperclassMethod) :
    smapGet (smapPush m q v) B =
      if B = q then (smapGet m B).map (fun l => l ++ [v]) else smapGet m B := by
  induction m with
  | nil => by_cases h : B = q <;> simp [smapGet, smapPush, h]
  | cons e rest ih =>
    obtain ⟨k, l⟩ := e
    rw [smapPush_cons]
    by_cases hkq : k = q
    · rw [if_pos hkq]
      by_cases hkB : k = B
      · have hBq : B = q := hkB ▸ hkq
        rw [smapGet_cons, if_pos hkB, smapGet_cons, if_pos hkB, if_pos hBq]
        rfl
      · rw [smapGet_cons, if_neg hkB, smapGet_cons, if_neg hkB, ih]
    · rw [if_neg hkq]
      by_cases hkB : k = B
      · have hBq : ¬ B = q := fun hh => hkq (hkB.trans hh)
        rw [smapGet_cons, if_pos hkB, smapGet_cons, if_pos hkB, if_neg hBq]
      · rw [smapGet_cons, if_neg hkB, smapGet_cons, if_neg hkB, ih]

/-- Replacing the entries at key `k` by `(k, [])` leaves other lookups
unchanged. -/
theorem smapGet_replace_ne (m : SuperclassMap) (k B : QualifiedName) (h : B ≠ k) :
    smapGet (m.map (fun e => if e.1 = k then (k, ([] : List SuperclassMethod)) else e)) B =
      smapGet m B := by
  induction m with
  | nil => rfl
  | cons e rest ih =>
    obtain ⟨k', l⟩ := e
    rw [List.map_cons]
    by_cases hk' : k' = k
    · have hhead : (if (k', l).1 = k then (k, ([] : List SuperclassMethod)) else (k', l)) =
          (k, []) := if_pos hk'
      rw [hhead, smapGet_cons, if_neg (fun hh => h hh.symm), smapGet_cons,
        if_neg (fun hh => h ((hk' ▸ hh : k = B)).symm), ih]
    · have hhead : (if (k', l).1 = k then (k, ([] : List SuperclassMethod)) else (k', l)) =
          (k', l) := if_neg hk'
      rw [hhead, smapGet_cons, smapGet_cons]
      by_cases hk'B : k' = B
      · rw [if_pos hk'B, if_pos hk'B]
      · rw [if_neg hk'B, if_neg hk'B, ih]

/-- Replacing the entries at key `k` by `(k, [])` makes the lookup at `k`
empty exactly when the key was present. -/
theorem smapGet_replace_eq (m : SuperclassMap) (k : QualifiedName) :
    smapGet (m.map (fun e => if e.1 = k then (k, ([] : List SuperclassMethod)) else e)) k =
      if (smapGet m k).isSome then some [] else none := by
  induction m with
  | nil => rfl
  | cons e rest ih =>
    obtain ⟨k', l⟩ := e
    rw [List.map_cons]
    by_cases hk' : k' = k
    · have hhead : (if (k', l).1 = k then (k, ([] : List SuperclassMethod)) else (k', l)) =
          (k, []) := if_pos hk'
      rw [hhead, smapGet_cons, if_pos rfl, smapGet_cons, if_pos hk']
      rfl
    · have hhead : (if (k', l).1 = k then (k, ([] : List SuperclassMethod)) else (k', l)) =
          (k', l) := if_neg hk'
      rw [hhead, smapGet_cons, if_neg hk', smapGet_cons, if_neg hk', ih]

/-- Appending a fresh `(k, [])` entry changes only the lookup at `k`, and
only when it was absent. -/
theorem smapGet_append_fresh (m : SuperclassMap) (k B : QualifiedName) :
    smapGet (m ++ [(k, ([] : List SuperclassMethod))]) B =
      if (smapGet m B).isSome then smapGet m B
      else if B = k then some [] else none := by
  induction m with
  | nil =>
    by_cases h : B = k
    · rw [List.nil_append, smapGet_cons, if_pos h.symm]
      simp [smapGet, h]
    · rw [List.nil_append, smapGet_cons, if_neg (fun hh => h hh.symm)]
      simp [smapGet, h]
  | cons e rest ih =>
    obtain ⟨k', l⟩ := e
    rw [List.cons_append, smapGet_cons, smapGet_cons]
    by_cases hk' : k' = B
    · rw [if_pos hk', if_pos hk']
      rfl
    · rw [if_neg hk', if_neg hk', ih]

/-- `smapInsertEmpty` sets key `k` to the empty list and preserves other
keys. -/
theorem smapGet_insertEmpty (m : SuperclassMap) (k B : QualifiedName) :
    smapGet (smapInsertEmpty m k) B = if B = k then some [] else smapGet m B := by
  have hiso : (m.find? (fun e => e.1 = k)).isSome = (smapGet m k).isSome := by
    rw [smapGet]
    cases m.find? (fun e => decide (e.1 = k)) <;> rfl
  rw [smapInsertEmpty]
  by_cases hk : (m.find? (fun e => e.1 = k)).isSome = true
  · rw [if_pos hk]
    by_cases hBk : B = k
    · subst hBk
      rw [smapGet_replace_eq, if_pos (by rw [← hiso]; exact hk), if_pos rfl]
    · rw [smapGet_replace_ne m k B hBk, if_neg hBk]
  · rw [if_neg hk]
    rw [smapGet_append_fresh]
    by_cases hBk : B = k
    · subst hBk
      rw [if_neg (fun hh => hk (by rw [hiso]; exact hh)), if_pos rfl, if_pos rfl]
    · by_cases hBs : (smapGet m B).isSome = true
      · rw [if_pos hBs, if_neg hBk]
      · rw [if_neg hBs, if_neg hBk, if_neg hBk]
        exact (Option.not_isSome_iff_eq_none.mp hBs).symm

/-- Folding `smapInsertEmpty` over a key list: every listed key maps to
the empty list, all other lookups are unchanged. -/
theorem smapGet_foldl_insertEmpty (keys : List QualifiedName) :
    ∀ (m : SuperclassMap) (B : QualifiedName),
      smapGet (keys.foldl smapInsertEmpty m) B =
        if B ∈ keys then some [] else smapGet m B := by
  induction keys with
  | nil => intro m B; simp
  | cons k rest ih =>
    intro m B
    rw [List.foldl_cons, ih]
    by_cases hB : B ∈ rest
    · simp [hB]
    · by_cases hBk : B = k <;> simp [hB, hBk, smapGet_insertEmpty]

/-- The initial map of `accumulate_superclass_methods`. -/
theorem smapGet_smapInit (keys : List QualifiedName) (B : QualifiedName) :
    smapGet (smapInit keys) B = if B ∈ keys then some [] else none := by
  rw [smapInit, smapGet_foldl_insertEmpty]
  by_cases h : B ∈ keys
  · rw [if_pos h, if_pos h]
  · rw [if_neg h, if_neg h]
    rfl

/-- The item fold of `accumulate_superclass_methods` appends exactly the
virtual / pure-virtual methods received on `B`, in input order. -/
theorem smapGet_accumulate_aux (apis : List Api) :
    ∀ (m : SuperclassMap) (B : QualifiedName),
      smapGet (apis.foldl accumulateStep m) B =
        (smapGet m B).map (fun l => l ++ virtualMethodsOn B apis) := by
  induction apis with
  | nil =>
    intro m B
    rw [List.foldl_nil]
    cases h : smapGet m B <;> simp [virtualMethodsOn, h]
  | cons api rest ih =>
    intro m B
    rw [List.foldl_cons, ih]
    have hstep :
        accumulateStep m api = m →
        virtualMethodsOn B (api :: rest) = virtualMethodsOn B rest →
        Option.map (fun l => l ++ virtualMethodsOn B rest)
            (smapGet (accumulateStep m api) B) =
          Option.map (fun l => l ++ virtualMethodsOn B (api :: rest)) (smapGet m B) := by
      intro h hf
      rw [h, hf]
    match api with
    | .stringConstructor n => exact hstep rfl rfl
    | .constItem n p => exact hstep rfl rfl
    | .typedef n k => exact hstep rfl rfl
    | .structItem n k d => exact hstep rfl rfl
    | .enumItem n d => exact hstep rfl rfl
    | .forwardDeclaration n => exact hstep rfl rfl
    | .concreteType n => exact hstep rfl rfl
    | .cType n => exact hstep rfl rfl
    | .rustType n p => exact hstep rfl rfl
    | .rustFn n s p => exact hstep rfl rfl
    | .rustSubclassFn n d s => exact hstep rfl rfl
    | .subclass s sc => exact hstep rfl rfl
    | .rustSubclassConstructor s t => exact hstep rfl rfl
    | .ignoredItem n e c => exact hstep rfl rfl
    | .function name analysis =>
      match hk : analysis.kind with
      | .function =>
        refine hstep ?_ ?_ <;> simp [accumulateStep, virtualMethodsOn, hk]
      | .method receiver mk =>
        match mk with
        | .normal =>
          refine hstep ?_ ?_ <;> simp [accumulateStep, virtualMethodsOn, hk]
        | .constructorKind =>
          refine hstep ?_ ?_ <;> simp [accumulateStep, virtualMethodsOn, hk]
        | .staticKind =>
          refine hstep ?_ ?_ <;> simp [accumulateStep, virtualMethodsOn, hk]
        | .virtualKind rm =>
          have hstep2 : accumulateStep m (.function name analysis) =
              (if (smapGet m receiver).isSome
               then smapPush m receiver (mkSuperclassMethod name analysis rm)
               else m) := by
            simp [accumulateStep, hk]
          have hvm : virtualMethodsOn B (Api.function name analysis :: rest) =
              (if receiver = B
               then mkSuperclassMethod name analysis rm :: virtualMethodsOn B rest
               else virtualMethodsOn B rest) := by
            by_cases hr : receiver = B <;>
              simp [virtualMethodsOn, hk, List.filterMap_cons, hr]
          rw [hstep2, hvm]
          by_cases hr : receiver = B
          · subst hr
            rw [if_pos rfl]
            by_cases hs : (smapGet m receiver).isSome = true
            · rw [if_pos hs, smapGet_smapPush, if_pos rfl]
              obtain ⟨l, hl⟩ := Option.isSome_iff_exists.mp hs
              rw [hl]
              simp
            · rw [if_neg hs, Option.not_isSome_iff_eq_none.mp hs]
              rfl
          · rw [if_neg hr]
            by_cases hs : (smapGet m receiver).isSome = true
            · rw [if_pos hs, smapGet_smapPush, if_neg (fun hh => hr hh.symm)]
            · rw [if_neg hs]
        | .pureVirtualKind rm =>
          have hstep2 : accumulateStep m (.function name analysis) =
              (if (smapGet m receiver).isSome
               then smapPush m receiver (mkSuperclassMethod name analysis rm)
               else m) := by
            simp [accumulateStep, hk]
          have hvm : virtualMethodsOn B (Api.function name analysis :: rest) =
              (if receiver = B
               then mkSuperclassMethod name analysis rm :: virtualMethodsOn B rest
               else virtualMethodsOn B rest) := by
            by_cases hr : receiver = B <;>
              simp [virtualMethodsOn, hk, List.filterMap_cons, hr]
          rw [hstep2, hvm]
          by_cases hr : receiver = B
          · subst hr
            rw [if_pos rfl]
            by_cases hs : (smapGet m receiver).isSome = true
            · rw [if_pos hs, smapGet_smapPush, if_pos rfl]
              obtain ⟨l, hl⟩ := Option.isSome_iff_exists.mp hs
              rw [hl]
              simp
            · rw [if_neg hs, Option.not_isSome_iff_eq_none.mp hs]
              rfl
          · rw [if_neg hr]
            by_cases hs : (smapGet m receiver).isSome = true
            · rw [if_pos hs, smapGet_smapPush, if_neg (fun hh => hr hh.symm)]
            · rw [if_neg hs]

/-- `accumulate_superclass_methods` in closed form: each configured base
maps to exactly its virtual / pure-virtual methods in input order, every
other name maps to nothing. -/
theorem smapGet_accumulate (config : Config) (apis : List Api) (B : QualifiedName) :
    smapGet (accumulate_superclass_methods config apis) B =
      if B ∈ config.superclasses.map QualifiedName.newFromCppName
      then some (virtualMethodsOn B apis) else none := by
  rw [accumulate_superclass_methods, smapGet_accumulate_aux, smapGet_smapInit]
  by_cases h : B ∈ config.superclasses.map QualifiedName.newFromCppName <;> simp [h]

/-- C3: a virtual or pure-virtual `Function` on a configured base is
appended to exactly that base's list, with parameter names preserved in
original order and `requires_unsafe` true exactly when some parameter
demands it; functions on non-configured receivers (and non-virtual
methods, which `virtualMethodsOn` excludes) are never added to any list;
and the forwarded-argument list always drops the receiver (first)
parameter. -/
theorem c3_superclass_method_accumulation :
    (∀ (config : Config) (apis : List Api) (B : QualifiedName),
      B ∈ config.superclasses.map QualifiedName.newFromCppName →
        smapGet (accumulate_superclass_methods config apis) B =
          some (virtualMethodsOn B apis)) ∧
    (∀ (config : Config) (apis : List Api) (B : QualifiedName),
      B ∉ config.superclasses.map QualifiedName.newFromCppName →
        smapGet (accumulate_superclass_methods config apis) B = none) ∧
    (∀ (name : QualifiedName) (analysis : FnAnalysis) (rm : ReceiverMutability),
      (mkSuperclassMethod name analysis rm).paramNames =
        analysis.paramDetails.map (fun pd => pd.name) ∧
      ((mkSuperclassMethod name analysis rm).requiresUnsafe = true ↔
        ∃ pd ∈ analysis.paramDetails, pd.requiresUnsafe = true)) ∧
    (∀ (p : FnArg) (params : List FnArg),
      args_from_sig (p :: params) = params.filterMap patIdent) := by
  refine ⟨?_, ?_, ?_, ?_⟩
  · intro config apis B h
    rw [smapGet_accumulate, if_pos h]
  · intro config apis B h
    rw [smapGet_accumulate, if_neg h]
  · intro name analysis rm
    refine ⟨rfl, ?_⟩
    simp [mkSuperclassMethod, List.any_eq_true]
  · intro p params
    rfl

/-- Witness for C3: one pure-virtual method on a configured base. -/
theorem c3_witness :
    smapGet (accumulate_superclass_methods
        { superclasses := ["Base"], excludeUtilities := false
          makestringName := "ms", modName := "m" }
        [Api.function ⟨["ns"], "foo"⟩
          { kind := .method ⟨[], "Base"⟩ (.pureVirtualKind .const)
            params := [FnArg.receiver false, FnArg.typed (Pat.ident "x") "u32"]
            retType := .default
            paramDetails := [⟨Pat.ident "self", false⟩, ⟨Pat.ident "x", true⟩] }])
      ⟨[], "Base"⟩ =
      some [{ name := "foo"
              params := [FnArg.receiver false, FnArg.typed (Pat.ident "x") "u32"]
              paramNames := [Pat.ident "self", Pat.ident "x"]
              retType := .default
              receiverMutability := .const
              requiresUnsafe := true }] := by
  have h := c3_superclass_method_accumulation.1
    { superclasses := ["Base"], excludeUtilities := false
      makestringName := "ms", modName := "m" }
    [Api.function ⟨["ns"], "foo"⟩
      { kind := .method ⟨[], "Base"⟩ (.pureVirtualKind .const)
        params := [FnArg.receiver false, FnArg.typed (Pat.ident "x") "u32"]
        retType := .default
        paramDetails := [⟨Pat.ident "self", false⟩, ⟨Pat.ident "x", true⟩] }]
    ⟨[], "Base"⟩ (by decide)
  exact h.trans (by decide)

/-- C4: a Pod record's bundle holds the full value definition in the
bindgen region, one `Trivial` extern-type assertion binding the
original-name identity string in the global region, one bridge-side type
declaration under the type's own name, and one plain re-export; a NonPod
or Abstract record's bundle holds only a bare (opaque) bridge-side type
declaration plus re-exports, with no value definition and no global or
bridge items.  (`none` for the accumulated methods states the record has
no extensible-base methods, as in the spec's scenario A.) -/
theorem c4_record_type_emission :
    ∀ (ext : Externals) (config : Config) (name : QualifiedName) (id : String)
      (oi : RItem × Option String),
      generate_type ext config name id .pod (some oi) none =
        some { global_items :=
                 [RItem.externTypeAssertion name.bindgenPathSegs
                   (ext.originalNameString name) "Trivial"]
               bridge_items := ext.createImplItems id config
               extern_c_mod_items := [generate_cxxbridge_type ext name true none]
               bindgen_mod_items := [oi.1]
               materializations := [Use.usedFromCxxBridge] } ∧
      (∀ tk, tk = TypeKind.nonPod ∨ tk = TypeKind.abstract →
        generate_type ext config name id tk (some oi) none =
          some { extern_c_mod_items := [generate_cxxbridge_type ext name false oi.2]
                 bindgen_mod_items := [RItem.useCxxbridgeId id]
                 materializations := [Use.usedFromCxxBridge] }) ∧
      generate_type ext config name id .abstract none none =
        some { extern_c_mod_items := [generate_cxxbridge_type ext name false none]
               bindgen_mod_items := [RItem.useCxxbridgeId id]
               materializations := [Use.usedFromCxxBridge] } ∧
      declaredId (generate_cxxbridge_type ext name true none) = some name.localName ∧
      declaredId (generate_cxxbridge_type ext name false none) = some name.localName ∧
      Use.isPlainReexport Use.usedFromCxxBridge = true := by
  intro ext config name id oi
  refine ⟨rfl, ?_, rfl, rfl, rfl, rfl⟩
  rintro tk (rfl | rfl) <;> rfl

/-- Witness for C4 at a concrete opaque record. -/
theorem c4_witness :
    generate_type extDefault cfg0 ⟨["ns"], "T"⟩ "T" .nonPod
        (some (RItem.srcStruct "T", none)) none =
      some { extern_c_mod_items :=
               [generate_cxxbridge_type extDefault ⟨["ns"], "T"⟩ false none]
             bindgen_mod_items := [RItem.useCxxbridgeId "T"]
             materializations := [Use.usedFromCxxBridge] } :=
  (c4_record_type_emission extDefault cfg0 ⟨["ns"], "T"⟩ "T"
    (RItem.srcStruct "T", none)).2.1 .nonPod (Or.inl rfl)

/-- Membership through the first-occurrence fold. -/
theorem mem_foldl_dedup (l : List String) :
    ∀ (acc : List String) (x : String),
      (x ∈ l.foldl (fun acc s => if s ∈ acc then acc else acc ++ [s]) acc) ↔
        (x ∈ acc ∨ x ∈ l) := by
  induction l with
  | nil => intro acc x; simp
  | cons a t ih =>
    intro acc x
    rw [List.foldl_cons, ih]
    by_cases ha : a ∈ acc
    · rw [if_pos ha]
      constructor
      · rintro (h | h)
        · exact Or.inl h
        · exact Or.inr (List.mem_cons_of_mem a h)
      · rintro (h | h)
        · exact Or.inl h
        · rcases List.mem_cons.mp h with rfl | h
          · exact Or.inl ha
          · exact Or.inr h
    · rw [if_neg ha]
      constructor
      · rintro (h | h)
        · rcases List.mem_append.mp h with h | h
          · exact Or.inl h
          · rcases List.mem_singleton.mp h with rfl
            exact Or.inr (List.mem_cons_self _ _)
        · exact Or.inr (List.mem_cons_of_mem a h)
      · rintro (h | h)
        · exact Or.inl (List.mem_append.mpr (Or.inl h))
        · rcases List.mem_cons.mp h with rfl | h
          · exact Or.inl (List.mem_append.mpr (Or.inr (List.mem_singleton.mpr rfl)))
          · exact Or.inr h

/-- `firstDedup` keeps exactly the members. -/
theorem mem_firstDedup (l : List String) (x : String) :
    x ∈ firstDedup l ↔ x ∈ l := by
  rw [firstDedup, mem_foldl_dedup]
  simp

/-- The child segments are exactly the leading segments of the items. -/
theorem mem_childSegs {T : Type} (items : List (List String × T)) (s : String) :
    s ∈ childSegs items ↔ ∃ pv ∈ items, pv.1.head? = some s := by
  rw [childSegs, mem_firstDedup, List.mem_filterMap]

/-- `findSeg` over a built forest: every listed segment maps to the child
built from the items under it. -/
theorem findSeg_buildForestList {T : Type} (build : List (List String × T) → NSTree T)
    (items : List (List String × T)) :
    ∀ (segs : List String) (s : String),
      (buildForestList build items segs).findSeg s =
        if s ∈ segs then some (build (itemsUnder items s)) else none := by
  intro segs
  induction segs with
  | nil => intro s; simp [buildForestList, NSForest.findSeg]
  | cons k rest ih =>
    intro s
    rw [buildForestList, NSForest.findSeg]
    by_cases hk : k = s
    · subst hk
      rw [if_pos rfl, if_pos (List.mem_cons_self k rest)]
    · rw [if_neg hk, ih]
      by_cases hs : s ∈ rest
      · rw [if_pos hs, if_pos (List.mem_cons_of_mem k hs)]
      · rw [if_neg hs, if_neg ?_]
        intro h
        rcases List.mem_cons.mp h with h | h
        · exact hk h.symm
        · exact hs h

/-- The entries of a level are the payloads of the items whose remaining
path is empty, in input order. -/
theorem entriesHere_eq_filter {T : Type} (items : List (List String × T)) :
    entriesHere items =
      (items.filter (fun pv => pv.1 = ([] : List String))).map Prod.snd := by
  induction items with
  | nil => rfl
  | cons pv rest ih =>
    by_cases h : pv.1 = []
    · simp [entriesHere, List.filterMap_cons, List.filter_cons, h] at ih ⊢
      exact ih
    · simp [entriesHere, List.filterMap_cons, List.filter_cons, h] at ih ⊢
      exact ih

/-- Descending into segment `s` matches filtering on paths that start
with `s`. -/
theorem itemsUnder_filter {T : Type} (items : List (List String × T)) (s : String)
    (rest : List String) :
    ((itemsUnder items s).filter (fun pv => pv.1 = rest)).map Prod.snd =
      (items.filter (fun pv => pv.1 = s :: rest)).map Prod.snd := by
  induction items with
  | nil => rfl
  | cons pv t ih =>
    obtain ⟨p1, p2⟩ := pv
    cases p1 with
    | nil =>
      have hstep : itemsUnder (((([] : List String)), p2) :: t) s = itemsUnder t s := by
        rw [itemsUnder, List.filterMap_cons]
        rfl
      rw [hstep, List.filter_cons]
      rw [if_neg (by simp)]
      exact ih
    | cons k r =>
      by_cases hk : k = s
      · have hstep : itemsUnder ((k :: r, p2) :: t) s = (r, p2) :: itemsUnder t s := by
          rw [itemsUnder, List.filterMap_cons]
          have hred : (match (k :: r, p2).1 with
              | [] => (none : Option (List String × T))
              | k' :: r' => if k' = s then some (r', (k :: r, p2).2) else none) =
              some (r, p2) := by
            show (if k = s then some (r, p2) else none) = some (r, p2)
            rw [if_pos hk]
          rw [hred]
          rfl
        rw [hstep, List.filter_cons, List.filter_cons]
        by_cases hr : r = rest
        · rw [if_pos (by simp [hr]), if_pos (by simp [hk, hr])]
          rw [List.map_cons, List.map_cons, ih]
        · rw [if_neg (by simp [hr]), if_neg (by simp [hr])]
          exact ih
      · have hstep : itemsUnder ((k :: r, p2) :: t) s = itemsUnder t s := by
          rw [itemsUnder, List.filterMap_cons]
          have hred : (match (k :: r, p2).1 with
              | [] => (none : Option (List String × T))
              | k' :: r' => if k' = s then some (r', (k :: r, p2).2) else none) =
              none := by
            show (if k = s then some (r, p2) else none) = none
            rw [if_neg hk]
          rw [hred]
          rfl
        rw [hstep, List.filter_cons]
        rw [if_neg (by simp [hk])]
        exact ih

/-- The fold computing `depthBound` dominates its accumulator and every
path length. -/
theorem foldl_max_le {T : Type} (items : List (List String × T)) :
    ∀ (acc : Nat), acc ≤ items.foldl (fun m pv => max m pv.1.length) acc ∧
      ∀ pv ∈ items, pv.1.length ≤ items.foldl (fun m pv => max m pv.1.length) acc := by
  induction items with
  | nil => intro acc; exact ⟨le_refl _, by simp⟩
  | cons pv t ih =>
    intro acc
    rw [List.foldl_cons]
    obtain ⟨h1, h2⟩ := ih (max acc pv.1.length)
    refine ⟨le_trans (le_max_left _ _) h1, ?_⟩
    intro q hq
    rcases List.mem_cons.mp hq with rfl | hq
    · exact le_trans (le_max_right _ _) h1
    · exact h2 q hq

/-- Every path length is bounded by `depthBound`. -/
theorem depthBound_le {T : Type} (items : List (List String × T)) :
    ∀ pv ∈ items, pv.1.length ≤ depthBound items :=
  (foldl_max_le items 0).2

/-- Stripping a segment decreases the path-length bound. -/
theorem itemsUnder_length_le {T : Type} (items : List (List String × T)) (s : String)
    (n : Nat) (h : ∀ pv ∈ items, pv.1.length ≤ n + 1) :
    ∀ pv ∈ itemsUnder items s, pv.1.length ≤ n := by
  intro pv hpv
  rw [itemsUnder] at hpv
  obtain ⟨⟨p1, p2⟩, hmem, hf⟩ := List.mem_filterMap.mp hpv
  cases p1 with
  | nil => simp at hf
  | cons k r =>
    have hf' : (if k = s then some (r, p2) else none) = some pv := hf
    by_cases hk : k = s
    · rw [if_pos hk] at hf'
      have hpv2 : pv = (r, p2) := (Option.some.inj hf').symm
      subst hpv2
      have hlen := h (k :: r, p2) hmem
      simp only [List.length_cons] at hlen
      simp only []
      omega
    · rw [if_neg hk] at hf'
      cases hf'

/-- The namespace-tree builder groups while preserving input order: the
entries reachable along path `p` are exactly the payloads of the items
with path `p`, in input order. -/
theorem entriesListAt_buildTree {T : Type} :
    ∀ (p : List String) (fuel : Nat) (items : List (List String × T)),
      (∀ pv ∈ items, pv.1.length ≤ fuel) →
      entriesListAt (buildTree fuel items) p =
        (items.filter (fun pv => pv.1 = p)).map Prod.snd := by
  intro p
  induction p with
  | nil =>
    intro fuel items _
    cases fuel <;>
      simp [buildTree, entriesListAt, entriesAtPath, entriesHere_eq_filter]
  | cons s rest ih =>
    intro fuel items h
    cases fuel with
    | zero =>
      have hfil : items.filter (fun pv => pv.1 = s :: rest) = [] := by
        rw [List.filter_eq_nil_iff]
        intro pv hpv
        have h0 := h pv hpv
        have : pv.1 = [] := List.eq_nil_of_length_eq_zero (Nat.le_zero.mp h0)
        simp [this]
      rw [hfil]
      simp [buildTree, entriesListAt, entriesAtPath, NSForest.findSeg]
    | succ n =>
      rw [entriesListAt, buildTree, entriesAtPath, findSeg_buildForestList]
      by_cases hs : s ∈ childSegs items
      · rw [if_pos hs, Option.some_bind]
        have ihs := ih n (itemsUnder items s) (itemsUnder_length_le items s n h)
        rw [entriesListAt] at ihs
        rw [ihs, itemsUnder_filter]
      · rw [if_neg hs]
        have hfil : items.filter (fun pv => pv.1 = s :: rest) = [] := by
          rw [List.filter_eq_nil_iff]
          intro pv hpv hcon
          apply hs
          rw [mem_childSegs]
          refine ⟨pv, hpv, ?_⟩
          have he : pv.1 = s :: rest := of_decide_eq_true hcon
          rw [he]
          rfl
        rw [hfil]
        rfl

mutual

/-- An `is_empty` subtree renders to nothing in the 'use' hierarchy. -/
theorem use_render_of_empty (t : NSTree NsEntry) (h : t.isEmptyB = true) :
    append_child_use_namespace t = [] := by
  match t with
  | .node es cs =>
    rw [NSTree.isEmptyB, Bool.and_eq_true] at h
    have hes : es = [] := by
      cases es
      · rfl
      · cases h.1
    rw [append_child_use_namespace, hes, use_forest_of_empty cs h.2]
    rfl

/-- A forest of `is_empty` children renders to nothing in the 'use'
hierarchy. -/
theorem use_forest_of_empty (f : NSForest NsEntry) (h : f.allEmptyB = true) :
    appendChildUseForest f = [] := by
  match f with
  | .nil => rfl
  | .cons k c rest =>
    rw [NSForest.allEmptyB, Bool.and_eq_true] at h
    rw [appendChildUseForest, if_pos h.1, use_forest_of_empty rest h.2]
    rfl

end

mutual

/-- An `is_empty` subtree renders to nothing in the bindgen hierarchy,
for any possible HashMap iteration order. -/
theorem bindgen_render_of_empty (config : Config) (orderf : ImplOrderFn)
    (hv : ValidImplOrder orderf) (t : NSTree NsEntry) (ns : List String)
    (h : t.isEmptyB = true) :
    append_child_bindgen_namespace config orderf t ns = [] := by
  match t with
  | .node es cs =>
    rw [NSTree.isEmptyB, Bool.and_eq_true] at h
    have hes : es = [] := by
      cases es
      · rfl
      · cases h.1
    subst hes
    rw [append_child_bindgen_namespace,
      bindgen_forest_of_empty config orderf hv cs ns h.2]
    have horder : orderf (implPairs []) = [] := List.Perm.eq_nil (hv (implPairs []))
    rw [horder]
    rfl

/-- A forest of `is_empty` children renders to nothing in the bindgen
hierarchy. -/
theorem bindgen_forest_of_empty (config : Config) (orderf : ImplOrderFn)
    (hv : ValidImplOrder orderf) (f : NSForest NsEntry) (ns : List String)
    (h : f.allEmptyB = true) :
    appendChildBindgenForest config orderf f ns = [] := by
  match f with
  | .nil => rfl
  | .cons k c rest =>
    rw [NSForest.allEmptyB, Bool.and_eq_true] at h
    rw [appendChildBindgenForest,
      bindgen_render_of_empty config orderf hv c (ns ++ [k]) h.1,
      bindgen_forest_of_empty config orderf hv rest ns h.2]
    rfl

end

/-- C8: (i) the namespace-tree grouping preserves the relative input
order of entries at every namespace level - navigating the built tree
along any path yields exactly the input entries with that namespace, in
input order; (ii) both renderers emit a level's entry contributions in
entry-list order before any child scope; (iii) a namespace segment with
no entries of its own and no non-empty descendants is never rendered as a
module: an empty subtree renders to nothing and is skipped by the
per-child loops of both renderers (for the bindgen renderer, under any
valid HashMap iteration order). -/
theorem c8_namespace_tree_rendering :
    (∀ (input : List NsEntry) (p : List String),
      entriesListAt (namespaceEntriesNew (input.map fun e => (e.1.nspace, e))) p =
        input.filter (fun e => e.1.nspace = p)) ∧
    (∀ (es : List NsEntry) (cs : NSForest NsEntry),
      append_child_use_namespace (.node es cs) =
        (es.map materializeEntry).flatten ++ appendChildUseForest cs) ∧
    (∀ (config : Config) (orderf : ImplOrderFn) (es : List NsEntry)
       (cs : NSForest NsEntry) (ns : List String),
      append_child_bindgen_namespace config orderf (.node es cs) ns =
        (es.map fun e => e.2.bindgen_mod_items).flatten ++
          renderImplBlocks (orderf (implPairs es)) (implPairs es) ++
          appendChildBindgenForest config orderf cs ns) ∧
    (∀ t : NSTree NsEntry, t.isEmptyB = true → append_child_use_namespace t = []) ∧
    (∀ (k : String) (c : NSTree NsEntry) (rest : NSForest NsEntry),
      c.isEmptyB = true →
        appendChildUseForest (.cons k c rest) = appendChildUseForest rest) ∧
    (∀ (config : Config) (orderf : ImplOrderFn), ValidImplOrder orderf →
      (∀ (t : NSTree NsEntry) (ns : List String), t.isEmptyB = true →
        append_child_bindgen_namespace config orderf t ns = []) ∧
      (∀ (k : String) (c : NSTree NsEntry) (rest : NSForest NsEntry) (ns : List String),
        c.isEmptyB = true →
          appendChildBindgenForest config orderf (.cons k c rest) ns =
            appendChildBindgenForest config orderf rest ns)) := by
  refine ⟨?_, ?_, ?_, use_render_of_empty, ?_, ?_⟩
  · intro input p
    have hb := entriesListAt_buildTree p (depthBound (input.map fun e => (e.1.nspace, e)))
      (input.map fun e => (e.1.nspace, e)) (depthBound_le _)
    rw [namespaceEntriesNew, hb]
    rw [List.filter_map, List.map_map]
    have h1 : (Prod.snd ∘ fun (e : NsEntry) => (e.1.nspace, e)) = id := rfl
    have h2 : ((fun (pv : List String × NsEntry) => decide (pv.1 = p)) ∘
        fun (e : NsEntry) => (e.1.nspace, e)) =
        fun (e : NsEntry) => decide (e.1.nspace = p) := rfl
    rw [h1, h2, List.map_id]
  · intro es cs
    rfl
  · intro config orderf es cs ns
    rfl
  · intro k c rest h
    rw [appendChildUseForest, if_pos h]
    rfl
  · intro config orderf hv
    refine ⟨fun t ns h => bindgen_render_of_empty config orderf hv t ns h, ?_⟩
    intro k c rest ns h
    rw [appendChildBindgenForest,
      bindgen_render_of_empty config orderf hv c (ns ++ [k]) h]
    rfl

/-- Witness for C8: the per-level grouping and both empty-scope rules at
concrete inputs. -/
theorem c8_witness :
    append_child_use_namespace (NSTree.node ([] : List NsEntry) .nil) = [] ∧
    append_child_bindgen_namespace cfg0 (fun ps => implKeys ps)
      (NSTree.node ([] : List NsEntry) .nil) [] = [] ∧
    entriesListAt (namespaceEntriesNew (implOrderInput.map fun e => (e.1.nspace, e))) [] =
      implOrderInput := by
  refine ⟨?_, ?_, ?_⟩
  · exact c8_namespace_tree_rendering.2.2.2.1 (NSTree.node [] .nil) rfl
  · exact (c8_namespace_tree_rendering.2.2.2.2.2 cfg0 (fun ps => implKeys ps)
      (fun ps => List.Perm.refl _)).1 (NSTree.node [] .nil) [] rfl
  · rw [c8_namespace_tree_rendering.1 implOrderInput []]
    rfl

/-- C1: the merged impl blocks of the bindgen hierarchy are emitted in
the iteration order of a std `HashMap`, which is not a function of the
input: on one concrete two-item input, two iteration orders that are both
permutations of the key set (so both are possible `HashMap` iterations)
yield different renderings.  Re-running the generator on identical input
is therefore not guaranteed to produce byte-identical output. -/
theorem c1_impl_block_order_nondeterminism :
    ValidImplOrder (fun ps => implKeys ps) ∧
    ValidImplOrder (fun ps => (implKeys ps).reverse) ∧
    ((append_child_bindgen_namespace cfg0 (fun ps => implKeys ps)
        (namespaceEntriesNew (implOrderInput.map fun e => (e.1.nspace, e))) []).map
          implTyOf = [some "A", some "B"]) ∧
    ((append_child_bindgen_namespace cfg0 (fun ps => (implKeys ps).reverse)
        (namespaceEntriesNew (implOrderInput.map fun e => (e.1.nspace, e))) []).map
          implTyOf = [some "B", some "A"]) ∧
    append_child_bindgen_namespace cfg0 (fun ps => implKeys ps)
        (namespaceEntriesNew (implOrderInput.map fun e => (e.1.nspace, e))) [] ≠
      append_child_bindgen_namespace cfg0 (fun ps => (implKeys ps).reverse)
        (namespaceEntriesNew (implOrderInput.map fun e => (e.1.nspace, e))) [] := by
  have hA : (append_child_bindgen_namespace cfg0 (fun ps => implKeys ps)
      (namespaceEntriesNew (implOrderInput.map fun e => (e.1.nspace, e))) []).map
        implTyOf = [some "A", some "B"] := by decide
  have hB : (append_child_bindgen_namespace cfg0 (fun ps => (implKeys ps).reverse)
      (namespaceEntriesNew (implOrderInput.map fun e => (e.1.nspace, e))) []).map
        implTyOf = [some "B", some "A"] := by decide
  refine ⟨fun ps => List.Perm.refl _, fun ps => List.reverse_perm _, hA, hB, fun h => ?_⟩
  have hcontra := hA.symm.trans ((congrArg (fun l => List.map implTyOf l) h).trans hB)
  exact absurd hcontra (by decide)

end Autocxx
